import Mathlib

/-!
Verification of the libshardcache KePaxos replication engine (src/kepaxos.c)
and the ARC cache engine (src/arc.c) against their natural-language
specification.  The C code is shallowly embedded: machine integers become
`Nat` with explicit `% 2^64` where overflow matters, the hash tables become
finite maps (`Key → Option _`), and external callbacks (send / commit /
fetch / evict / the persistent log backend) are passed in as explicit
parameters or modelled from their interface contract.
-/

set_option maxRecDepth 4000

namespace Libshardcache

/-- Number of values of a 64-bit unsigned integer, i.e. 2^64. -/
def U64 : Nat := 18446744073709551616

/-- Truncation to 64 bits: the effect of storing into a `uint64_t` / `size_t`. -/
def u64 (n : Nat) : Nat := n % U64

/-- Subtraction of `size_t` values (`a - b` wraps modulo 2^64 when `b > a`);
both arguments are assumed `< 2^64`. -/
def size_t_sub (a b : Nat) : Nat := if b ≤ a then a - b else U64 + a - b

/-- Keys are opaque byte strings (`void *key` + `klen`). -/
abbrev Key := List Nat

/-! ## Ballot updates (kepaxos.c:158-181)

`BALLOT_VALUE(b)` is `b >> 8`; the low byte of a ballot is the originating
replica index.  `kepaxos_reset_ballot` (kepaxos.c:158-165) is an empty stub
(its body is a TODO comment), so the `real_ballot == 0` branch leaves the
local ballot unchanged. -/

/-- Shallow embedding of `update_ballot` (kepaxos.c:167-181).  `cur` is the
engine's current ballot (`ke->ballot`), `myIndex` is `ke->my_index`
(`< 256`), `ballot` the inbound message's ballot.  Returns the new value of
`ke->ballot` (which is also the C function's return value).
`(updated_ballot << 8) | my_index` is embedded as
`u64 (updated_ballot * 256) + myIndex`: the shifted value has a zero low
byte, so bitwise-or coincides with addition. -/
def update_ballot (cur myIndex ballot : Nat) : Nat :=
  let real_ballot := ballot / 256
  let updated_ballot := u64 (real_ballot + 1)
  if real_ballot = 0 then
    cur
  else if updated_ballot = 0 then
    myIndex
  else if cur < u64 (updated_ballot * 256) + myIndex then
    u64 (updated_ballot * 256) + myIndex
  else
    cur

/-! ## Wire format (kepaxos.c:258-329 and kepaxos.c:511-579) -/

/-- `KEPAXOS_MSGLEN_MIN` (kepaxos.c:23): `3 + 6*4 + 2`. -/
def KEPAXOS_MSGLEN_MIN : Nat := 3 + 4 * 6 + 2

/-- Big-endian encoding of a 16-bit value (the effect of `htons` + `memcpy`). -/
def u16be (n : Nat) : List Nat := [n / 256 % 256, n % 256]

/-- Big-endian encoding of a 32-bit value (the effect of `htonl` + `memcpy`). -/
def u32be (n : Nat) : List Nat :=
  [n / 16777216 % 256, n / 65536 % 256, n / 256 % 256, n % 256]

/-- Reading the byte at offset `off` of a buffer. -/
def readByte (msg : List Nat) (off : Nat) : Nat := (msg.drop off).headD 0

/-- `ntohs(*(uint16_t *)(msg + off))` on a big-endian wire buffer. -/
def readU16 (msg : List Nat) (off : Nat) : Nat :=
  readByte msg off * 256 + readByte msg (off + 1)

/-- `ntohl(*(uint32_t *)(msg + off))` on a big-endian wire buffer. -/
def readU32 (msg : List Nat) (off : Nat) : Nat :=
  ((readByte msg off * 256 + readByte msg (off + 1)) * 256
      + readByte msg (off + 2)) * 256 + readByte msg (off + 3)

/-- Shallow embedding of `kepaxos_build_message` (kepaxos.c:258-329).
`sender` is the NUL-free byte string of the sender name (the C code appends
the terminating NUL itself via `strlen(sender) + 1` and `memcpy`);
`committed` is the C `int` argument, stored as `committed ? 1 : 0`.
The key and data lengths are the lengths of the supplied buffers
(`klen`/`dlen` in C, truncated to 32 bits by `htonl`). -/
def kepaxos_build_message (sender : List Nat) (mtype ctype : Nat) (ballot : Nat)
    (key : List Nat) (data : List Nat) (seq : Nat) (committed : Nat) : List Nat :=
  let sender_len := sender.length + 1
  u16be (sender_len % 65536)
    ++ (sender ++ [0])
    ++ u32be (ballot / 4294967296)
    ++ u32be (ballot % 4294967296)
    ++ u32be (seq / 4294967296)
    ++ u32be (seq % 4294967296)
    ++ [mtype % 256, ctype % 256, if committed ≠ 0 then 1 else 0]
    ++ u32be (key.length % 4294967296)
    ++ key
    ++ u32be (data.length % 4294967296)
    ++ data

/-- The fields of a parsed `kepaxos_msg_t` (kepaxos.c:40-51).  `peer` is the
NUL-terminated string the C struct points at (without its NUL); `key` and
`data` are the pointed-to buffers of length `klen` / `dlen`. -/
structure KepaxosParsedMsg where
  peer : List Nat
  ballot : Nat
  seq : Nat
  mtype : Nat
  ctype : Nat
  committed : Nat
  key : List Nat
  klen : Nat
  data : List Nat
  dlen : Nat
deriving DecidableEq

/-- Shallow embedding of `kepaxos_parse_message` (kepaxos.c:511-579).
Returns `none` where the C function returns `-1` (short buffer). -/
def kepaxos_parse_message (msg : List Nat) : Option KepaxosParsedMsg :=
  if msg.length < KEPAXOS_MSGLEN_MIN then none else
  let sender_len := readU16 msg 0
  let expected1 := KEPAXOS_MSGLEN_MIN + sender_len
  if msg.length < expected1 then none else
  let peer := (msg.drop 2).takeWhile (fun b => b ≠ 0)
  let off := 2 + sender_len
  let ballot_high := readU32 msg off
  let ballot_low := readU32 msg (off + 4)
  let seq_high := readU32 msg (off + 8)
  let seq_low := readU32 msg (off + 12)
  let mtype := readByte msg (off + 16)
  let ctype := readByte msg (off + 17)
  let committed := readByte msg (off + 18)
  let klen := readU32 msg (off + 19)
  let expected2 := expected1 + klen
  if msg.length < expected2 then none else
  let key := (msg.drop (off + 23)).take klen
  let dlen := readU32 msg (off + 23 + klen)
  if msg.length < expected2 + dlen then none else
  let data := (msg.drop (off + 27 + klen)).take dlen
  some { peer := peer
         ballot := ballot_high * 4294967296 + ballot_low
         seq := seq_high * 4294967296 + seq_low
         mtype := mtype, ctype := ctype, committed := committed
         key := key, klen := klen, data := data, dlen := dlen }

/-! ### C3: the local ballot never decreases under `update_ballot` -/

/-- C3: for every inbound ballot `b` (a 64-bit value) processed by
`update_ballot`, with `v = b >> 8`: if `v + 1` wraps to 0 the local ballot is
reset to `(1 << 8) | my_index`; otherwise the local ballot either stays
unchanged or is raised to `((v+1) << 8) | my_index`, only when that value is
strictly greater than the current local ballot — so on the non-wrapping path
the local ballot never decreases.  (For 64-bit inputs `v ≤ 2^56 - 1`, so the
wrapping branch is in fact unreachable.) -/
theorem update_ballot_never_decreases (cur myIndex ballot : Nat)
    (hb : ballot < U64) :
    (u64 (ballot / 256 + 1) = 0 →
      update_ballot cur myIndex ballot = 256 + myIndex) ∧
    (u64 (ballot / 256 + 1) ≠ 0 →
      cur ≤ update_ballot cur myIndex ballot ∧
      (update_ballot cur myIndex ballot = cur ∨
        (cur < update_ballot cur myIndex ballot ∧
         update_ballot cur myIndex ballot
           = u64 ((ballot / 256 + 1) * 256) + myIndex))) := by
  have hv : ballot / 256 + 1 < U64 := by
    have : ballot / 256 ≤ ballot / 256 := le_refl _
    have h2 : ballot / 256 < U64 / 256 + 1 := by
      have := Nat.div_le_div_right (c := 256) (Nat.le_of_lt hb)
      omega
    simp only [U64] at *
    omega
  have hnz : u64 (ballot / 256 + 1) ≠ 0 := by
    simp only [u64, Nat.mod_eq_of_lt hv]
    omega
  refine ⟨fun h => absurd h hnz, fun _ => ?_⟩
  unfold update_ballot
  simp only [u64, Nat.mod_eq_of_lt hv] at hnz ⊢
  by_cases h0 : ballot / 256 = 0
  · rw [if_pos h0]
    exact ⟨le_refl _, Or.inl rfl⟩
  · rw [if_neg h0, if_neg hnz]
    by_cases hlt : cur < (ballot / 256 + 1) * 256 % U64 + myIndex
    · rw [if_pos hlt]
      exact ⟨Nat.le_of_lt hlt, Or.inr ⟨hlt, rfl⟩⟩
    · rw [if_neg hlt]
      exact ⟨le_refl _, Or.inl rfl⟩

/-- Witness for C3 at a concrete input: current ballot 259, replica index 3,
inbound ballot 1000. -/
theorem update_ballot_never_decreases_witness :
    (1000 : Nat) < U64 ∧ u64 (1000 / 256 + 1) ≠ 0 ∧
      259 ≤ update_ballot 259 3 1000 :=
  ⟨by decide, by decide,
    (((update_ballot_never_decreases 259 3 1000 (by decide)).2) (by decide)).1⟩

/-! ### C6: build/parse round-trip

Helper lemmas about the byte readers. -/

theorem readByte_drop (msg : List Nat) (off k : Nat) :
    readByte msg (off + k) = readByte (msg.drop off) k := by
  simp [readByte, List.drop_drop, Nat.add_comm]

theorem readU16_drop (msg : List Nat) (off : Nat) :
    readU16 msg off = readU16 (msg.drop off) 0 := by
  have h0 := readByte_drop msg off 0
  have h1 := readByte_drop msg off 1
  simp only [Nat.add_zero] at h0
  simp only [readU16, h0, h1, Nat.zero_add]

theorem readU32_drop (msg : List Nat) (off : Nat) :
    readU32 msg off = readU32 (msg.drop off) 0 := by
  have h0 := readByte_drop msg off 0
  have h1 := readByte_drop msg off 1
  have h2 := readByte_drop msg off 2
  have h3 := readByte_drop msg off 3
  simp only [Nat.add_zero] at h0
  simp only [readU32, h0, h1, h2, h3, Nat.zero_add]

theorem readU16_cons (x y : Nat) (rest : List Nat) :
    readU16 (x :: y :: rest) 0 = x * 256 + y := rfl

theorem readU32_cons (x y z w : Nat) (rest : List Nat) :
    readU32 (x :: y :: z :: w :: rest) 0 = ((x * 256 + y) * 256 + z) * 256 + w := rfl

theorem readU16_at_u16be (n : Nat) (rest : List Nat) (h : n < 65536) :
    readU16 (u16be n ++ rest) 0 = n := by
  simp only [u16be, List.cons_append, List.nil_append, readU16_cons]
  omega

theorem readU32_at_u32be (n : Nat) (rest : List Nat) (h : n < 4294967296) :
    readU32 (u32be n ++ rest) 0 = n := by
  simp only [u32be, List.cons_append, List.nil_append, readU32_cons]
  omega

theorem takeWhile_nonzero (sender rest : List Nat) (hs : ∀ b ∈ sender, b ≠ 0) :
    ((sender ++ 0 :: rest).takeWhile fun b => b ≠ 0) = sender := by
  rw [List.takeWhile_append_of_pos (by simpa using hs)]
  simp

theorem drop_chunk (l a b : List Nat) (n : Nat) (h : l.drop n = a ++ b) :
    l.drop (n + a.length) = b := by
  rw [← List.drop_drop, h, List.drop_left]

/-- Parsing a buffer of the exact shape produced by `kepaxos_build_message`,
with the chunks named.  The main round-trip theorem instantiates the chunk
variables. -/
theorem kepaxos_parse_canonical
    (R sender key data r1 r2 r3 r4 r5 r6 r7 r8 : List Nat)
    (bh bl sh sl mt ct cb : Nat)
    (hMsg : R = u16be (sender.length + 1) ++ (sender ++ 0 :: r1))
    (h1 : r1 = u32be bh ++ r2) (h2 : r2 = u32be bl ++ r3)
    (h3 : r3 = u32be sh ++ r4) (h4 : r4 = u32be sl ++ r5)
    (h5 : r5 = mt :: ct :: cb :: r6)
    (h6 : r6 = u32be key.length ++ r7) (h7 : r7 = key ++ r8)
    (h8 : r8 = u32be data.length ++ data)
    (hs : ∀ b ∈ sender, b ≠ 0) (hslen : sender.length + 1 < 65536)
    (hbh : bh < 4294967296) (hbl : bl < 4294967296)
    (hsh : sh < 4294967296) (hsl : sl < 4294967296)
    (hk : key.length < 4294967296) (hd : data.length < 4294967296) :
    kepaxos_parse_message R
      = some { peer := sender, ballot := bh * 4294967296 + bl
               seq := sh * 4294967296 + sl, mtype := mt, ctype := ct
               committed := cb, key := key, klen := key.length
               data := data, dlen := data.length } := by
  have hu16len : (u16be (sender.length + 1)).length = 2 := by simp [u16be]
  have hRlen : R.length
      = 30 + sender.length + key.length + data.length := by
    subst hMsg h1 h2 h3 h4 h5 h6 h7 h8
    simp [u16be, u32be]
    omega
  have h0 : readU16 R 0 = sender.length + 1 := by
    rw [hMsg]; exact readU16_at_u16be _ _ hslen
  have hd2 : R.drop 2 = sender ++ 0 :: r1 := by
    rw [hMsg, show (2 : Nat) = (u16be (sender.length + 1)).length from hu16len.symm,
        List.drop_left]
  have hpeer : ((R.drop 2).takeWhile fun b => b ≠ 0) = sender := by
    rw [hd2]; exact takeWhile_nonzero sender r1 hs
  have hdA : R.drop (2 + (sender.length + 1)) = r1 := by
    have h := drop_chunk R (sender ++ [0]) r1 2 (by simpa using hd2)
    simpa using h
  have hD4 : R.drop (2 + (sender.length + 1) + 4) = r2 := by
    have h := drop_chunk R (u32be bh) r2 (2 + (sender.length + 1)) (by rw [hdA, h1])
    simpa [u32be] using h
  have hD8 : R.drop (2 + (sender.length + 1) + 8) = r3 := by
    have h := drop_chunk R (u32be bl) r3 (2 + (sender.length + 1) + 4) (by rw [hD4, h2])
    rw [show 2 + (sender.length + 1) + 8
          = 2 + (sender.length + 1) + 4 + (u32be bl).length by simp [u32be]]
    exact h
  have hD12 : R.drop (2 + (sender.length + 1) + 12) = r4 := by
    have h := drop_chunk R (u32be sh) r4 (2 + (sender.length + 1) + 8) (by rw [hD8, h3])
    rw [show 2 + (sender.length + 1) + 12
          = 2 + (sender.length + 1) + 8 + (u32be sh).length by simp [u32be]]
    exact h
  have hD16 : R.drop (2 + (sender.length + 1) + 16) = mt :: ct :: cb :: r6 := by
    have h := drop_chunk R (u32be sl) r5 (2 + (sender.length + 1) + 12) (by rw [hD12, h4])
    rw [show 2 + (sender.length + 1) + 16
          = 2 + (sender.length + 1) + 12 + (u32be sl).length by simp [u32be]]
    rw [h, h5]
  have hD17 : R.drop (2 + (sender.length + 1) + 17) = ct :: cb :: r6 := by
    have h := drop_chunk R [mt] (ct :: cb :: r6) (2 + (sender.length + 1) + 16)
      (by rw [hD16]; rfl)
    rw [show 2 + (sender.length + 1) + 17
          = 2 + (sender.length + 1) + 16 + ([mt] : List Nat).length by simp]
    exact h
  have hD18 : R.drop (2 + (sender.length + 1) + 18) = cb :: r6 := by
    have h := drop_chunk R [ct] (cb :: r6) (2 + (sender.length + 1) + 17)
      (by rw [hD17]; rfl)
    rw [show 2 + (sender.length + 1) + 18
          = 2 + (sender.length + 1) + 17 + ([ct] : List Nat).length by simp]
    exact h
  have hD19 : R.drop (2 + (sender.length + 1) + 19) = u32be key.length ++ r7 := by
    have h := drop_chunk R [cb] r6 (2 + (sender.length + 1) + 18)
      (by rw [hD18]; rfl)
    rw [show 2 + (sender.length + 1) + 19
          = 2 + (sender.length + 1) + 18 + ([cb] : List Nat).length by simp]
    rw [h, h6]
  have hD23 : R.drop (2 + (sender.length + 1) + 23) = key ++ r8 := by
    have h := drop_chunk R (u32be key.length) r7 (2 + (sender.length + 1) + 19)
      (by rw [hD19])
    rw [show 2 + (sender.length + 1) + 23
          = 2 + (sender.length + 1) + 19 + (u32be key.length).length by simp [u32be]]
    rw [h, h7]
  have hD23k : R.drop (2 + (sender.length + 1) + 23 + key.length)
      = u32be data.length ++ data := by
    have h := drop_chunk R key r8 (2 + (sender.length + 1) + 23) (by rw [hD23])
    rw [h, h8]
  have hD27k : R.drop (2 + (sender.length + 1) + 27 + key.length) = data := by
    have h := drop_chunk R (u32be data.length) data
      (2 + (sender.length + 1) + 23 + key.length) (by rw [hD23k])
    rw [show 2 + (sender.length + 1) + 27 + key.length
          = 2 + (sender.length + 1) + 23 + key.length + (u32be data.length).length
          by rw [show (u32be data.length).length = 4 by simp [u32be]]; omega]
    exact h
  have hBH : readU32 R (2 + (sender.length + 1)) = bh := by
    rw [readU32_drop, hdA, h1]; exact readU32_at_u32be _ _ hbh
  have hBL : readU32 R (2 + (sender.length + 1) + 4) = bl := by
    rw [readU32_drop, hD4, h2]; exact readU32_at_u32be _ _ hbl
  have hSH : readU32 R (2 + (sender.length + 1) + 8) = sh := by
    rw [readU32_drop, hD8, h3]; exact readU32_at_u32be _ _ hsh
  have hSL : readU32 R (2 + (sender.length + 1) + 12) = sl := by
    rw [readU32_drop, hD12, h4]; exact readU32_at_u32be _ _ hsl
  have hMT : readByte R (2 + (sender.length + 1) + 16) = mt := by
    show (R.drop _).headD 0 = mt
    rw [hD16]; rfl
  have hCT : readByte R (2 + (sender.length + 1) + 17) = ct := by
    show (R.drop _).headD 0 = ct
    rw [hD17]; rfl
  have hCB : readByte R (2 + (sender.length + 1) + 18) = cb := by
    show (R.drop _).headD 0 = cb
    rw [hD18]; rfl
  have hKL : readU32 R (2 + (sender.length + 1) + 19) = key.length := by
    rw [readU32_drop, hD19]; exact readU32_at_u32be _ _ hk
  have hDL : readU32 R (2 + (sender.length + 1) + 23 + key.length) = data.length := by
    rw [readU32_drop, hD23k]; exact readU32_at_u32be _ _ hd
  have hKey : (R.drop (2 + (sender.length + 1) + 23)).take key.length = key := by
    rw [hD23, List.take_left]
  have hData : (R.drop (2 + (sender.length + 1) + 27 + key.length)).take data.length
      = data := by
    rw [hD27k, List.take_length]
  simp only [kepaxos_parse_message, KEPAXOS_MSGLEN_MIN, h0, hBH, hBL, hSH, hSL,
    hMT, hCT, hCB, hKL, hDL, hKey, hData, hpeer]
  rw [if_neg (by omega), if_neg (by omega), if_neg (by omega), if_neg (by omega)]

/-- C6: encoding a message with `kepaxos_build_message` and parsing it back
with `kepaxos_parse_message` succeeds and yields exactly the original field
values, for every sender string (NUL-free, with `strlen(sender)+1`
representable in the 16-bit `sender_len` field), message type, command type,
64-bit ballot and seq, committed flag (0 or 1), and key/data buffers with
32-bit representable lengths. -/
theorem kepaxos_build_parse_roundtrip
    (sender : List Nat) (mtype ctype ballot seq committed : Nat) (key data : List Nat)
    (hs : ∀ b ∈ sender, b ≠ 0)
    (hslen : sender.length + 1 < 65536)
    (hmt : mtype < 256) (hct : ctype < 256) (hcm : committed ≤ 1)
    (hb : ballot < U64) (hq : seq < U64)
    (hk : key.length < 4294967296) (hd : data.length < 4294967296) :
    kepaxos_parse_message
        (kepaxos_build_message sender mtype ctype ballot key data seq committed)
      = some { peer := sender, ballot := ballot, seq := seq, mtype := mtype
               ctype := ctype, committed := committed
               key := key, klen := key.length
               data := data, dlen := data.length } := by
  have hcb : (if committed ≠ 0 then (1 : Nat) else 0) = committed := by
    rcases Nat.le_one_iff_eq_zero_or_eq_one.mp hcm with h | h <;> simp [h]
  have hbh : ballot / 4294967296 < 4294967296 := by
    simp only [U64] at hb; omega
  have hbl : ballot % 4294967296 < 4294967296 := Nat.mod_lt _ (by omega)
  have hsh : seq / 4294967296 < 4294967296 := by
    simp only [U64] at hq; omega
  have hsl : seq % 4294967296 < 4294967296 := Nat.mod_lt _ (by omega)
  have hbuild : kepaxos_build_message sender mtype ctype ballot key data seq committed
      = u16be (sender.length + 1) ++ (sender ++ 0 ::
          (u32be (ballot / 4294967296) ++ (u32be (ballot % 4294967296)
            ++ (u32be (seq / 4294967296) ++ (u32be (seq % 4294967296)
              ++ (mtype :: ctype :: committed ::
                (u32be key.length ++ (key
                  ++ (u32be data.length ++ data))))))))) := by
    simp [kepaxos_build_message, List.append_assoc, hcb, Nat.mod_eq_of_lt hslen,
      Nat.mod_eq_of_lt hk, Nat.mod_eq_of_lt hd, Nat.mod_eq_of_lt hmt,
      Nat.mod_eq_of_lt hct]
  rw [hbuild]
  rw [kepaxos_parse_canonical
        (u16be (sender.length + 1) ++ (sender ++ 0 ::
          (u32be (ballot / 4294967296) ++ (u32be (ballot % 4294967296)
            ++ (u32be (seq / 4294967296) ++ (u32be (seq % 4294967296)
              ++ (mtype :: ctype :: committed ::
                (u32be key.length ++ (key
                  ++ (u32be data.length ++ data))))))))))
        sender key data
        (u32be (ballot / 4294967296) ++ (u32be (ballot % 4294967296)
            ++ (u32be (seq / 4294967296) ++ (u32be (seq % 4294967296)
              ++ (mtype :: ctype :: committed ::
                (u32be key.length ++ (key
                  ++ (u32be data.length ++ data))))))))
        (u32be (ballot % 4294967296)
            ++ (u32be (seq / 4294967296) ++ (u32be (seq % 4294967296)
              ++ (mtype :: ctype :: committed ::
                (u32be key.length ++ (key
                  ++ (u32be data.length ++ data)))))))
        (u32be (seq / 4294967296) ++ (u32be (seq % 4294967296)
              ++ (mtype :: ctype :: committed ::
                (u32be key.length ++ (key
                  ++ (u32be data.length ++ data))))))
        (u32be (seq % 4294967296)
              ++ (mtype :: ctype :: committed ::
                (u32be key.length ++ (key
                  ++ (u32be data.length ++ data)))))
        (mtype :: ctype :: committed ::
                (u32be key.length ++ (key
                  ++ (u32be data.length ++ data))))
        (u32be key.length ++ (key ++ (u32be data.length ++ data)))
        (key ++ (u32be data.length ++ data))
        (u32be data.length ++ data)
        (ballot / 4294967296) (ballot % 4294967296)
        (seq / 4294967296) (seq % 4294967296)
        mtype ctype committed
        rfl rfl rfl rfl rfl rfl rfl rfl rfl
        hs hslen hbh hbl hsh hsl hk hd]
  rw [show ballot / 4294967296 * 4294967296 + ballot % 4294967296 = ballot by omega,
      show seq / 4294967296 * 4294967296 + seq % 4294967296 = seq by omega]

/-- Witness for C6 at a concrete input: sender "A", PRE_ACCEPT, ballot 259,
seq 7, committed, key [107], data [100]. -/
theorem kepaxos_build_parse_roundtrip_witness :
    kepaxos_parse_message (kepaxos_build_message [65] 1 0 259 [107] [100] 7 1)
      = some { peer := [65], ballot := 259, seq := 7, mtype := 1, ctype := 0
               committed := 1, key := [107], klen := 1, data := [100], dlen := 1 } :=
  kepaxos_build_parse_roundtrip [65] 1 0 259 7 1 [107] [100]
    (by decide) (by decide) (by decide) (by decide) (by decide)
    (by decide) (by decide) (by decide) (by decide)

/-! ## KePaxos engine state (kepaxos.c:53-96)

The in-flight command table `ke->commands` (a hashtable key → command) is a
finite map; per-thread locking, timestamps and the expirer thread are not
modelled (the claims below are about the sequential semantics of the
handlers).  The persistent log `kepaxos_log_t` is implemented in
kepaxos_log.c, which is not among the sources under verification; it is
modelled from the spec. -/

/-- Modelled from the spec: the persistent log interface (spec section 6),
whose implementation (kepaxos_log.c) is not under src/.  "A mapping
`key → (ballot, seq)` with operations `last_seq_for_key(key) → (seq,
ballot)`, `set_last_seq_for_key(key, ballot, seq)`, `max_ballot() → u64`,
`diff_from_ballot(b) → items[]`.  Durability semantics are the log's
responsibility; the engine assumes writes are visible immediately after
return."  `diffFrom` is the opaque diff query; its items are
`(key, ballot, seq)` triples. -/
structure KepaxosLog where
  seqOf : Key → Nat
  ballotOf : Key → Nat
  maxBallot : Nat
  diffFrom : Nat → List (Key × Nat × Nat)

/-- Modelled from the spec: `kepaxos_last_seq_for_key` returns the stored
`(seq, ballot)` pair for the key. -/
def kepaxos_last_seq_for_key (log : KepaxosLog) (key : Key) : Nat × Nat :=
  (log.seqOf key, log.ballotOf key)

/-- Modelled from the spec: `kepaxos_set_last_seq_for_key` stores the pair
for the key; writes are visible immediately after return. -/
def kepaxos_set_last_seq_for_key (log : KepaxosLog) (key : Key)
    (ballot seq : Nat) : KepaxosLog :=
  { log with
    seqOf := fun k => if k = key then seq else log.seqOf k
    ballotOf := fun k => if k = key then ballot else log.ballotOf k
    maxBallot := max log.maxBallot ballot }

/-- `kepaxos_cmd_status_t` (kepaxos.c:25-30).  `noStatus` is the zero value
that placeholder commands created by `calloc` carry. -/
inductive KepaxosCmdStatus where
  | noStatus
  | preAccepted
  | accepted
  | committed
deriving DecidableEq

/-- One collected response (`kepaxos_vote_t`, kepaxos.c:53-59). -/
structure KepaxosVote where
  peer : List Nat
  seq : Nat
  ballot : Nat
deriving DecidableEq

/-- An in-flight command (`struct __kepaxos_cmd_s`, kepaxos.c:61-81).
`timestamp`, `timeout` and the lock/condition fields are not modelled
(no real time in the embedding); `max_seq_committed` is a C `uint64_t`
used strictly as a boolean. -/
structure KepaxosCmd where
  ctype : Nat
  status : KepaxosCmdStatus
  seq : Nat
  key : Key
  data : List Nat
  votes : List KepaxosVote
  maxSeq : Nat
  maxSeqCommitted : Bool
  maxVoter : Option (List Nat)
  ballot : Nat
  waiting : Bool
deriving DecidableEq

/-- The engine (`struct __kepaxos_s`, kepaxos.c:83-96), without the thread
and callback plumbing. -/
structure KepaxosState where
  log : KepaxosLog
  commands : Key → Option KepaxosCmd
  numPeers : Nat
  myIndex : Nat
  ballot : Nat

/-- `ht_set` on the command table. -/
def setCmd (ke : KepaxosState) (key : Key) (cmd : KepaxosCmd) : KepaxosState :=
  { ke with commands := fun k => if k = key then some cmd else ke.commands k }

/-- `ht_delete` on the command table. -/
def delCmd (ke : KepaxosState) (key : Key) : KepaxosState :=
  { ke with commands := fun k => if k = key then none else ke.commands k }

/-! ## Commit handler (kepaxos.c:855-901) -/

/-- Shallow embedding of `kepaxos_handle_commit` (kepaxos.c:855-901).
The `ke->callbacks.commit(...)` invocation is external (its return value is
ignored by the C code); the embedding records the return code and the state
after the handler. -/
def kepaxos_handle_commit (ke : KepaxosState) (msg : KepaxosParsedMsg) :
    Int × KepaxosState :=
  let cmd? := ke.commands msg.key
  if cmd?.any fun c => c.seq == msg.seq && decide (msg.ballot < c.ballot) then
    (-1, ke)
  else
    let last_recorded_seq := (kepaxos_last_seq_for_key ke.log msg.key).1
    if msg.seq < last_recorded_seq then
      (0, ke)
    else
      let ke1 := { ke with
        log := kepaxos_set_last_seq_for_key ke.log msg.key msg.ballot msg.seq }
      match cmd? with
      | some cmd => if cmd.seq ≤ msg.seq then (0, delCmd ke1 msg.key) else (0, ke1)
      | none => (0, ke1)

/-! ## Leader path: command creation and run_command
(kepaxos.c:357-401 and kepaxos.c:403-454) -/

/-- Shallow embedding of `kepaxos_command_create` (kepaxos.c:357-401).
`seq` is the caller-supplied last committed seq (the C code runs
`cmd->seq = ++seq`); `ht_get_and_set` replaces any previous command for the
key, and if one existed the new command's seq is raised to
`MAX(seq, interfering_seq + 1)`. -/
def kepaxos_command_create (ke : KepaxosState) (seq : Nat) (ctype : Nat)
    (key : Key) (data : List Nat) : KepaxosCmd × KepaxosState :=
  let cmd : KepaxosCmd :=
    { ctype := ctype, status := .preAccepted, seq := u64 (seq + 1)
      key := key, data := data, votes := [], maxSeq := 0
      maxSeqCommitted := false, maxVoter := none
      ballot := ke.ballot, waiting := false }
  match ke.commands key with
  | some prev =>
    let cmd1 := { cmd with seq := max (u64 (seq + 1)) (u64 (prev.seq + 1)) }
    (cmd1, setCmd ke key cmd1)
  | none => (cmd, setCmd ke key cmd)

/-- Shallow embedding of `kepaxos_run_command` (kepaxos.c:403-454).  The
external effects are abstracted: the send callback and the wait on the
command's condition variable happen between command creation and the final
read of the log, and `finalSeq` is the value `kepaxos_last_seq_for_key`
returns at that final read.  Result: (created command's seq, return code,
state right after command creation). -/
def kepaxos_run_command (ke : KepaxosState) (ctype : Nat) (key : Key)
    (data : List Nat) (finalSeq : Nat) : Nat × Int × KepaxosState :=
  let last_seq := (kepaxos_last_seq_for_key ke.log key).1
  let cs := kepaxos_command_create ke last_seq ctype key data
  let seq := cs.1.seq
  (seq, if finalSeq ≥ seq then 0 else -1, cs.2)

/-! ## Recovery diff query (kepaxos.c:981-1002) -/

/-- Shallow embedding of `kepaxos_get_diff` (kepaxos.c:981-1002).  The call
into the log backend `kepaxos_diff_from_ballot` is the opaque `diffFrom`
query (modelled from the spec); its C return code is 0 here.  The third
component records whether `kepaxos_diff_from_ballot` was invoked. -/
def kepaxos_get_diff (ke : KepaxosState) (ballot : Nat) :
    Int × List (Key × Nat × Nat) × Bool :=
  if ke.log.maxBallot / 256 ≤ ballot / 256 then
    (-1, [], false)
  else
    (0, ke.log.diffFrom ballot, true)

/-! ### C2: effect of the commit handler on the per-key log seq -/

/-- C2 (amended): a Commit message is ignored (state unchanged) when
`msg.seq < log.seq(key)`, and also when an in-flight command exists for the
key with `cmd.seq == msg.seq` and `cmd.ballot > msg.ballot`; otherwise the
handler stores `msg.seq` into the log, so `log.seq(key)` afterwards equals
`msg.seq`, which is greater than or equal to (not necessarily strictly
greater than) its pre-commit value. -/
theorem kepaxos_handle_commit_log_seq (ke : KepaxosState) (msg : KepaxosParsedMsg) :
    (msg.seq < ke.log.seqOf msg.key →
      (kepaxos_handle_commit ke msg).2 = ke) ∧
    (((ke.commands msg.key).any
        fun c => c.seq == msg.seq && decide (msg.ballot < c.ballot)) = true →
      (kepaxos_handle_commit ke msg).2 = ke) ∧
    (¬ msg.seq < ke.log.seqOf msg.key →
      ((ke.commands msg.key).any
        fun c => c.seq == msg.seq && decide (msg.ballot < c.ballot)) = false →
      (kepaxos_handle_commit ke msg).2.log.seqOf msg.key = msg.seq ∧
      ke.log.seqOf msg.key ≤ (kepaxos_handle_commit ke msg).2.log.seqOf msg.key) := by
  refine ⟨?_, ?_, ?_⟩
  · intro hlt
    unfold kepaxos_handle_commit
    by_cases hb : ((ke.commands msg.key).any
        fun c => c.seq == msg.seq && decide (msg.ballot < c.ballot)) = true
    · simp [hb]
    · simp only [Bool.not_eq_true] at hb
      simp [hb, kepaxos_last_seq_for_key, hlt]
  · intro hb
    unfold kepaxos_handle_commit
    simp [hb]
  · intro hge hb
    unfold kepaxos_handle_commit
    simp only [hb, Bool.false_eq_true, if_false, kepaxos_last_seq_for_key]
    rw [if_neg hge]
    have hlog : (kepaxos_set_last_seq_for_key ke.log msg.key msg.ballot
        msg.seq).seqOf msg.key = msg.seq := by
      simp [kepaxos_set_last_seq_for_key]
    rcases hc : ke.commands msg.key with _ | cmd
    · dsimp only
      exact ⟨hlog, by rw [hlog]; omega⟩
    · dsimp only
      by_cases hle : cmd.seq ≤ msg.seq
      · rw [if_pos hle]
        dsimp only [delCmd]
        exact ⟨hlog, by rw [hlog]; omega⟩
      · rw [if_neg hle]
        exact ⟨hlog, by rw [hlog]; omega⟩

/-- State for the C2 witness/counterexample: `log.seq([1]) = 5`, no
in-flight command. -/
def c2State : KepaxosState :=
  { log := { seqOf := fun k => if k = [1] then 5 else 0
             ballotOf := fun _ => 0
             maxBallot := 0
             diffFrom := fun _ => [] }
    commands := fun _ => none
    numPeers := 5, myIndex := 0, ballot := 256 }

/-- Commit message whose seq equals the logged seq for the key. -/
def c2Msg : KepaxosParsedMsg :=
  { peer := [65], ballot := 300, seq := 5, mtype := 5, ctype := 0, committed := 1
    key := [1], klen := 1, data := [], dlen := 0 }

/-- C2 counterexample: a Commit with `msg.seq = log.seq(key) = 5` is not in
the ignore branch (`¬ msg.seq < log.seq(key)`), is processed (return 0, and
the log is written), yet afterwards `log.seq(key) = 5` is not strictly
greater than its pre-commit value 5. -/
theorem kepaxos_handle_commit_equal_seq_replay :
    ¬ c2Msg.seq < c2State.log.seqOf c2Msg.key ∧
    (kepaxos_handle_commit c2State c2Msg).1 = 0 ∧
    (kepaxos_handle_commit c2State c2Msg).2.log.seqOf c2Msg.key
        = c2State.log.seqOf c2Msg.key ∧
    ¬ c2State.log.seqOf c2Msg.key
        < (kepaxos_handle_commit c2State c2Msg).2.log.seqOf c2Msg.key := by
  refine ⟨by decide, by decide, by decide, by decide⟩

/-- Witness for the amended C2 at a concrete input: committing seq 7 over a
logged seq 5 stores 7. -/
theorem kepaxos_handle_commit_log_seq_witness :
    (kepaxos_handle_commit c2State
        { peer := [65], ballot := 300, seq := 7, mtype := 5, ctype := 0
          committed := 1, key := [1], klen := 1, data := [], dlen := 0 }).2.log.seqOf [1]
      = 7 :=
  ((kepaxos_handle_commit_log_seq c2State
      { peer := [65], ballot := 300, seq := 7, mtype := 5, ctype := 0
        committed := 1, key := [1], klen := 1, data := [], dlen := 0 }).2.2
    (by decide) (by decide)).1

/-! ### C7: seq selection and return value of run_command -/

/-- C7: `kepaxos_run_command` creates its command with
`seq = log.seq(key) + 1`, raised to `prev.seq + 1` when an in-flight command
for the same key with `prev.seq ≥ seq` existed; the created command replaces
any previous one, has status PRE_ACCEPTED and the current ballot; and the
call returns 0 iff the log seq observed after completion is ≥ the command's
seq (else -1). -/
theorem kepaxos_run_command_seq_result (ke : KepaxosState) (ctype : Nat)
    (key : Key) (data : List Nat) (finalSeq : Nat)
    (hlast : ke.log.seqOf key + 1 < U64)
    (hprev : ∀ prev, ke.commands key = some prev → prev.seq + 1 < U64) :
    ((kepaxos_run_command ke ctype key data finalSeq).1
      = (match ke.commands key with
         | some prev =>
             if ke.log.seqOf key + 1 ≤ prev.seq then prev.seq + 1
             else ke.log.seqOf key + 1
         | none => ke.log.seqOf key + 1)) ∧
    (((kepaxos_run_command ke ctype key data finalSeq).2.2.commands key).map
        (fun c => (c.seq, c.status, c.ballot))
      = some ((kepaxos_run_command ke ctype key data finalSeq).1,
              KepaxosCmdStatus.preAccepted, ke.ballot)) ∧
    ((kepaxos_run_command ke ctype key data finalSeq).2.1 = 0
      ↔ (kepaxos_run_command ke ctype key data finalSeq).1 ≤ finalSeq) := by
  have hu : u64 (ke.log.seqOf key + 1) = ke.log.seqOf key + 1 :=
    Nat.mod_eq_of_lt hlast
  unfold kepaxos_run_command kepaxos_command_create kepaxos_last_seq_for_key
  rcases hc : ke.commands key with _ | prev
  · dsimp only
    simp only [hu]
    refine ⟨trivial, by simp [setCmd], ?_⟩
    by_cases hge : finalSeq ≥ ke.log.seqOf key + 1
    · rw [if_pos hge]
      exact ⟨fun _ => hge, fun _ => rfl⟩
    · rw [if_neg hge]
      constructor
      · intro h; exact absurd h (by decide)
      · intro h; exact absurd h hge
  · dsimp only
    have hp : u64 (prev.seq + 1) = prev.seq + 1 :=
      Nat.mod_eq_of_lt (hprev prev hc)
    simp only [hu, hp]
    refine ⟨?_, by simp [setCmd], ?_⟩
    · rcases le_or_lt (ke.log.seqOf key + 1) prev.seq with h | h
      · rw [if_pos h, max_eq_right (by omega : ke.log.seqOf key + 1 ≤ prev.seq + 1)]
      · rw [if_neg (by omega), max_eq_left (by omega : prev.seq + 1 ≤ ke.log.seqOf key + 1)]
    by_cases hge : finalSeq ≥ max (ke.log.seqOf key + 1) (prev.seq + 1)
    · rw [if_pos hge]
      exact ⟨fun _ => hge, fun _ => rfl⟩
    · rw [if_neg hge]
      constructor
      · intro h; exact absurd h (by decide)
      · intro h; exact absurd h hge

/-- State for the C7 witness: `log.seq([3]) = 4`, no in-flight command. -/
def c7State : KepaxosState :=
  { log := { seqOf := fun k => if k = [3] then 4 else 0
             ballotOf := fun _ => 0
             maxBallot := 0
             diffFrom := fun _ => [] }
    commands := fun _ => none
    numPeers := 5, myIndex := 0, ballot := 512 }

/-- Witness for C7 at a concrete input: the created seq is 5 = 4 + 1 and the
command commits (return 0) when the final log seq is 5. -/
theorem kepaxos_run_command_seq_result_witness :
    (kepaxos_run_command c7State 0 [3] [] 5).1 = 5 ∧
    (kepaxos_run_command c7State 0 [3] [] 5).2.1 = 0 := by
  have h := kepaxos_run_command_seq_result c7State 0 [3] [] 5
    (by decide) (fun prev hp => by simp [c7State] at hp)
  refine ⟨by simpa using h.1, h.2.2.mpr (by simpa using h.1.le)⟩

/-! ### C10: the diff query guard -/

/-- C10: `kepaxos_get_diff(b)` returns -1 with no diff items whenever the
value part of `b` (i.e. `b >> 8`) is at least the value part of the log's
maximum ballot, and the log's `diff_from_ballot` query is invoked only when
the queried ballot value is strictly below the log's maximum. -/
theorem kepaxos_get_diff_guard (ke : KepaxosState) (ballot : Nat) :
    (ke.log.maxBallot / 256 ≤ ballot / 256 →
      kepaxos_get_diff ke ballot = (-1, [], false)) ∧
    ((kepaxos_get_diff ke ballot).2.2 = true →
      ballot / 256 < ke.log.maxBallot / 256) := by
  unfold kepaxos_get_diff
  by_cases h : ke.log.maxBallot / 256 ≤ ballot / 256
  · rw [if_pos h]
    exact ⟨fun _ => rfl, by simp⟩
  · rw [if_neg h]
    exact ⟨fun hh => absurd hh h, fun _ => by omega⟩

/-- State for the C10 witness: the log's max ballot is 1000. -/
def c10State : KepaxosState :=
  { log := { seqOf := fun _ => 0, ballotOf := fun _ => 0
             maxBallot := 1000, diffFrom := fun _ => [] }
    commands := fun _ => none
    numPeers := 5, myIndex := 0, ballot := 256 }

/-- Witness for C10 at a concrete input: querying ballot 2000 (value part
7 ≥ 3) yields -1 and no items, without invoking the diff query. -/
theorem kepaxos_get_diff_guard_witness :
    kepaxos_get_diff c10State 2000 = (-1, [], false) :=
  (kepaxos_get_diff_guard c10State 2000).1 (by decide)

/-! ## Accept response handler (kepaxos.c:761-853) -/

/-- What `kepaxos_handle_accept_response` did (which branch of the C function
ran).  `commit cmd` means the command was removed from the table and
`kepaxos_commit` was invoked on it (commit callback, log update, Commit
broadcast, kepaxos.c:477-490); `retry...` are the two `kepaxos_send_accept`
re-issue branches. -/
inductive KepaxosARAction where
  | noCommand
  | ignoredBallot
  | ignoredStatus
  | retryCommittedElsewhere (newBallot newSeq : Nat)
  | retryNoConcordance (newBallot newSeq : Nat)
  | waitQuorum
  | commit (cmd : KepaxosCmd)
deriving DecidableEq

/-- The `count_ok` loop of kepaxos.c:812-816: number of collected votes whose
`(seq, ballot)` equal the response's. -/
def countMatching (votes : List KepaxosVote) (seq ballot : Nat) : Nat :=
  (votes.filter fun v => v.seq == seq && v.ballot == ballot).length

/-- Shallow embedding of `kepaxos_handle_accept_response` (kepaxos.c:761-853). -/
def kepaxos_handle_accept_response (ke : KepaxosState) (msg : KepaxosParsedMsg) :
    KepaxosARAction × KepaxosState :=
  match ke.commands msg.key with
  | none => (.noCommand, ke)
  | some cmd =>
    if msg.ballot < cmd.ballot then (.ignoredBallot, ke)
    else if cmd.status ≠ KepaxosCmdStatus.accepted then (.ignoredStatus, ke)
    else if cmd.seq = msg.seq ∧ msg.committed ≠ 0 then
      -- some replica already committed this seq: retry with the next one
      let cmd1 := { cmd with seq := u64 (cmd.seq + 1), ballot := ke.ballot,
                             votes := [], maxSeq := 0, maxVoter := none }
      (.retryCommittedElsewhere ke.ballot cmd1.seq, setCmd ke msg.key cmd1)
    else
      let votes1 := cmd.votes ++ [{ peer := msg.peer, seq := msg.seq, ballot := msg.ballot }]
      let maxSeq1 := max cmd.maxSeq msg.seq
      let maxVoter1 := if maxSeq1 = msg.seq then some msg.peer else cmd.maxVoter
      let cmd1 := { cmd with votes := votes1, maxSeq := maxSeq1, maxVoter := maxVoter1 }
      let count_ok := countMatching votes1 msg.seq msg.ballot
      if count_ok < ke.numPeers / 2 then
        if ke.numPeers / 2 ≤ votes1.length then
          -- no concordant quorum: retry paxos with a higher seq
          let seq2 := if cmd1.seq ≤ cmd1.maxSeq then u64 (cmd1.seq + 1) else cmd1.seq
          let cmd2 := { cmd1 with seq := seq2, ballot := ke.ballot,
                                  votes := [], maxSeq := 0, maxVoter := none }
          (.retryNoConcordance ke.ballot seq2, setCmd ke msg.key cmd2)
        else (.waitQuorum, setCmd ke msg.key cmd1)
      else
        (.commit cmd1, delCmd ke msg.key)

/-! ### C1: quorum needed by the Accept-response commit -/

/-- Projection used to state the C1 counterexample without binders. -/
def KepaxosARAction.commitVotes : KepaxosARAction → Option (List KepaxosVote)
  | .commit c => some c.votes
  | _ => none

/-- C1 (amended): when the Accept-response handler commits, the number of
collected votes (including the response just appended) whose `(seq, ballot)`
match the response's is at least `num_peers/2` — not `num_peers/2 + 1`; the
originator's own vote is implicit, so `num_peers/2` collected responses plus
the originator form the strict majority — and the command is removed from
the command table. -/
theorem kepaxos_accept_response_commit_quorum (ke : KepaxosState)
    (msg : KepaxosParsedMsg) (cmd1 : KepaxosCmd)
    (h : (kepaxos_handle_accept_response ke msg).1 = .commit cmd1) :
    ke.numPeers / 2 ≤ countMatching cmd1.votes msg.seq msg.ballot ∧
    (kepaxos_handle_accept_response ke msg).2.commands msg.key = none := by
  unfold kepaxos_handle_accept_response at h ⊢
  rcases hc : ke.commands msg.key with _ | cmd
  · rw [hc] at h
    dsimp only at h
    exact absurd h (by simp)
  · rw [hc] at h
    dsimp only at h ⊢
    by_cases h1 : msg.ballot < cmd.ballot
    · rw [if_pos h1] at h; exact absurd h (by simp)
    · rw [if_neg h1] at h ⊢
      by_cases h2 : cmd.status ≠ KepaxosCmdStatus.accepted
      · rw [if_pos h2] at h; exact absurd h (by simp)
      · rw [if_neg h2] at h ⊢
        by_cases h3 : cmd.seq = msg.seq ∧ msg.committed ≠ 0
        · rw [if_pos h3] at h; exact absurd h (by simp)
        · rw [if_neg h3] at h ⊢
          by_cases h4 : countMatching
              (cmd.votes ++ [({ peer := msg.peer, seq := msg.seq, ballot := msg.ballot } : KepaxosVote)])
              msg.seq msg.ballot < ke.numPeers / 2
          · rw [if_pos h4] at h
            by_cases h5 : ke.numPeers / 2
                ≤ (cmd.votes ++ [({ peer := msg.peer, seq := msg.seq, ballot := msg.ballot } : KepaxosVote)]).length
            · rw [if_pos h5] at h; exact absurd h (by simp)
            · rw [if_neg h5] at h; exact absurd h (by simp)
          · rw [if_neg h4] at h ⊢
            have hcmd : cmd1 = { cmd with
                votes := cmd.votes ++ [{ peer := msg.peer, seq := msg.seq, ballot := msg.ballot }],
                maxSeq := max cmd.maxSeq msg.seq,
                maxVoter := if max cmd.maxSeq msg.seq = msg.seq then some msg.peer
                            else cmd.maxVoter } := by
              simp only [KepaxosARAction.commit.injEq] at h
              exact h.symm
            constructor
            · rw [hcmd]
              dsimp only
              omega
            · simp [delCmd]

/-- Command under the C1 counterexample: status ACCEPTED at (seq 1, ballot
300) with one matching vote already collected, in a 5-peer group. -/
def c1Cmd : KepaxosCmd :=
  { ctype := 0, status := .accepted, seq := 1, key := [2], data := []
    votes := [{ peer := [80], seq := 1, ballot := 300 }]
    maxSeq := 1, maxSeqCommitted := false, maxVoter := some [80]
    ballot := 300, waiting := true }

/-- Engine state for the C1 counterexample. -/
def c1State : KepaxosState :=
  { log := { seqOf := fun _ => 0, ballotOf := fun _ => 0
             maxBallot := 300, diffFrom := fun _ => [] }
    commands := fun k => if k = [2] then some c1Cmd else none
    numPeers := 5, myIndex := 0, ballot := 300 }

/-- The second Accept response for the C1 counterexample. -/
def c1Msg : KepaxosParsedMsg :=
  { peer := [81], ballot := 300, seq := 1, mtype := 4, ctype := 0, committed := 0
    key := [2], klen := 1, data := [], dlen := 0 }

/-- C1 counterexample: with 5 peers, a command in status ACCEPTED with ballot
not above the response's commits as soon as 2 matching `(seq, ballot)` votes
are collected, and 2 < num_peers/2 + 1 = 3 — refuting the claimed threshold
`num_peers/2 + 1` over the collected votes. -/
theorem kepaxos_accept_response_commits_at_two_of_five :
    c1Cmd.status = KepaxosCmdStatus.accepted ∧
    ¬ c1Msg.ballot < c1Cmd.ballot ∧
    ((kepaxos_handle_accept_response c1State c1Msg).1.commitVotes.map
        fun vs => countMatching vs c1Msg.seq c1Msg.ballot) = some 2 ∧
    ¬ c1State.numPeers / 2 + 1 ≤ 2 := by
  exact ⟨by decide, by decide, by decide, by decide⟩

/-- Witness for the amended C1 at the concrete 5-peer input: the commit fires
with 2 = num_peers/2 matching votes and the command is removed. -/
theorem kepaxos_accept_response_commit_quorum_witness :
    c1State.numPeers / 2
        ≤ countMatching (c1Cmd.votes
            ++ [{ peer := [81], seq := 1, ballot := 300 }]) c1Msg.seq c1Msg.ballot ∧
    (kepaxos_handle_accept_response c1State c1Msg).2.commands c1Msg.key = none := by
  have h := kepaxos_accept_response_commit_quorum c1State c1Msg
    { c1Cmd with
      votes := c1Cmd.votes ++ [{ peer := [81], seq := 1, ballot := 300 }]
      maxSeq := max c1Cmd.maxSeq 1
      maxVoter := if max c1Cmd.maxSeq 1 = 1 then some [81] else c1Cmd.maxVoter }
    (by decide)
  exact ⟨h.1, h.2⟩

/-! ## PreAccept response handler (kepaxos.c:640-705) -/

/-- What `kepaxos_handle_preaccept_response` did.  `fastCommit cmd` is the
short-path commit (kepaxos.c:676-684): the command is removed from the table
and `kepaxos_commit` is invoked; `slowPath` is the Accept round
(kepaxos.c:685-701). -/
inductive KepaxosPAAction where
  | noCommand
  | ignoredBallot
  | ignoredStatus
  | waitQuorum
  | fastCommit (cmd : KepaxosCmd)
  | slowPath (newBallot newSeq : Nat)
deriving DecidableEq

/-- Projection used in the C5 statements. -/
def KepaxosPAAction.isFastCommit : KepaxosPAAction → Bool
  | .fastCommit _ => true
  | _ => false

/-- The `max_seq` / `max_seq_committed` bookkeeping of kepaxos.c:660-665 as a
function of the previous `(max_seq, max_seq_committed)` pair `p` and the
incoming response's `(seq, committed)` pair `v`.  Note the C code updates
`max_seq` first and then sets `max_seq_committed` from the updated value. -/
def pa_update_max (p : Nat × Bool) (v : Nat × Bool) : Nat × Bool :=
  if v.1 ≠ p.1 then
    (max p.1 v.1, v.2 && (max p.1 v.1 == v.1))
  else
    (p.1, p.2 || v.2)

/-- Shallow embedding of `kepaxos_handle_preaccept_response`
(kepaxos.c:640-705). -/
def kepaxos_handle_preaccept_response (ke : KepaxosState) (msg : KepaxosParsedMsg) :
    KepaxosPAAction × KepaxosState :=
  match ke.commands msg.key with
  | none => (.noCommand, ke)
  | some cmd =>
    if msg.ballot < cmd.ballot then (.ignoredBallot, ke)
    else if cmd.status ≠ KepaxosCmdStatus.preAccepted then (.ignoredStatus, ke)
    else
      let votes1 := cmd.votes
        ++ [({ peer := msg.peer, seq := msg.seq, ballot := msg.ballot } : KepaxosVote)]
      let mp := pa_update_max (cmd.maxSeq, cmd.maxSeqCommitted) (msg.seq, msg.committed != 0)
      let maxVoter1 := if mp.1 = msg.seq then some msg.peer else cmd.maxVoter
      let cmd1 := { cmd with votes := votes1, maxSeq := mp.1,
                             maxSeqCommitted := mp.2, maxVoter := maxVoter1 }
      if votes1.length < ke.numPeers / 2 then
        (.waitQuorum, setCmd ke msg.key cmd1)
      else if cmd1.seq > cmd1.maxSeq ∨ (cmd1.seq = cmd1.maxSeq ∧ cmd1.maxSeqCommitted = false) then
        (.fastCommit cmd1, delCmd ke msg.key)
      else
        let cmd2 := { cmd1 with votes := [], seq := u64 (cmd1.maxSeq + 1), maxSeq := 0,
                                maxVoter := none, ballot := ke.ballot,
                                status := KepaxosCmdStatus.accepted }
        (.slowPath ke.ballot (u64 (cmd1.maxSeq + 1)), setCmd ke msg.key cmd2)

/-! ### C5: PreAccept vote bookkeeping and the fast path

Spec-side descriptions of the bookkeeping, to be compared with the fold of
`pa_update_max`. -/

/-- Maximum seq among the collected responses (starting from the command's
initial `max_seq = 0`). -/
def maxSeqSpec (vs : List (Nat × Bool)) : Nat :=
  vs.foldl (fun a v => max a v.1) 0

/-- Scanning a response list from most recent to oldest: true iff some
response marked committed carries seq `M` and every response after it (i.e.
scanned before it) also carries seq `M`. -/
def trailingCommitted (M : Nat) : List (Nat × Bool) → Bool
  | [] => false
  | v :: rest => v.1 == M && (v.2 || trailingCommitted M rest)

/-- The `(max_seq, max_seq_committed)` pair after folding the bookkeeping of
kepaxos.c:660-665 over a response sequence, from the initial `(0, false)`. -/
def pa_fold (vs : List (Nat × Bool)) : Nat × Bool :=
  vs.foldl pa_update_max (0, false)

theorem foldl_max_le_init (l : List (Nat × Bool)) (a : Nat) :
    a ≤ l.foldl (fun x v => max x v.1) a := by
  induction l generalizing a with
  | nil => simp
  | cons v t ih =>
    simpa using le_trans (le_max_left a v.1) (ih (max a v.1))

theorem foldl_max_mem (l : List (Nat × Bool)) (a : Nat) (w : Nat × Bool)
    (hw : w ∈ l) : w.1 ≤ l.foldl (fun x v => max x v.1) a := by
  induction l generalizing a with
  | nil => cases hw
  | cons v t ih =>
    rcases List.mem_cons.mp hw with rfl | hw2
    · simpa using le_trans (le_max_right a w.1) (foldl_max_le_init t (max a w.1))
    · simpa using ih (max a v.1) hw2

theorem maxSeqSpec_concat (vs : List (Nat × Bool)) (v : Nat × Bool) :
    maxSeqSpec (vs ++ [v]) = max (maxSeqSpec vs) v.1 := by
  simp [maxSeqSpec, List.foldl_append]

theorem maxSeqSpec_mem_le (vs : List (Nat × Bool)) (w : Nat × Bool)
    (hw : w ∈ vs) : w.1 ≤ maxSeqSpec vs :=
  foldl_max_mem vs 0 w hw

theorem pa_fold_concat (vs : List (Nat × Bool)) (v : Nat × Bool) :
    pa_fold (vs ++ [v]) = pa_update_max (pa_fold vs) v := by
  simp [pa_fold, List.foldl_append]

theorem trailingCommitted_of_lt (M : Nat) (l : List (Nat × Bool))
    (h : ∀ w ∈ l, w.1 < M) : trailingCommitted M l = false := by
  cases l with
  | nil => rfl
  | cons v rest =>
    have hv : v.1 ≠ M := Nat.ne_of_lt (h v (by simp))
    have hb : (v.1 == M) = false := by simpa using hv
    simp [trailingCommitted, hb]

/-- The fold of the code's bookkeeping computes the maximum seq together
with the trailing-committed scan. -/
theorem pa_fold_spec (vs : List (Nat × Bool)) :
    pa_fold vs = (maxSeqSpec vs, trailingCommitted (maxSeqSpec vs) vs.reverse) := by
  induction vs using List.reverseRecOn with
  | nil => rfl
  | append_singleton vs v ih =>
    rw [pa_fold_concat, ih, maxSeqSpec_concat]
    have hrev : (vs ++ [v]).reverse = v :: vs.reverse := by simp
    rw [hrev]
    rcases Nat.lt_trichotomy v.1 (maxSeqSpec vs) with h | h | h
    · -- a lower-seq response: max unchanged, committed flag cleared
      have hne : v.1 ≠ maxSeqSpec vs := Nat.ne_of_lt h
      have hmax : max (maxSeqSpec vs) v.1 = maxSeqSpec vs := max_eq_left h.le
      unfold pa_update_max
      rw [if_pos (by simpa using hne)]
      dsimp only
      rw [hmax]
      have hb1 : (maxSeqSpec vs == v.1) = false := by
        simpa using (Nat.ne_of_lt h).symm
      have hb2 : (v.1 == maxSeqSpec vs) = false := by simpa using hne
      simp [trailingCommitted, hb1, hb2]
    · -- equal seq: flag is or-ed
      have hmax : max (maxSeqSpec vs) v.1 = maxSeqSpec vs := max_eq_left h.le
      unfold pa_update_max
      rw [if_neg (by simpa using h)]
      dsimp only
      rw [hmax]
      have hb : (v.1 == maxSeqSpec vs) = true := by simpa using h
      simp [trailingCommitted, hb, Bool.or_comm]
    · -- a strictly higher seq: it becomes the max, flag := its committed bit
      have hne : v.1 ≠ maxSeqSpec vs := (Nat.ne_of_lt h).symm
      have hmax : max (maxSeqSpec vs) v.1 = v.1 := max_eq_right h.le
      unfold pa_update_max
      rw [if_pos (by simpa using hne)]
      dsimp only
      rw [hmax]
      have htail : trailingCommitted v.1 vs.reverse = false := by
        refine trailingCommitted_of_lt _ _ fun w hw => ?_
        exact lt_of_le_of_lt (maxSeqSpec_mem_le vs w (List.mem_reverse.mp hw)) h
      simp [trailingCommitted, htail]

/-- C5 (amended): the handler updates `(max_seq, max_seq_committed)` by the
step `pa_update_max`, whose fold over the responses received so far yields:
`max_seq` equals the maximum seq among the responses, and
`max_seq_committed` is true iff some response carrying that maximum seq was
marked committed and every response received after it also carried that
maximum (a lower-seq response arriving later clears the flag even though the
response carrying the highest seq was marked committed); once at least
`num_peers/2` votes have arrived, the fast-path commit fires exactly when
`cmd.seq > cmd.max_seq` or (`cmd.seq = cmd.max_seq` and
`cmd.max_seq_committed` is false), evaluated on the just-updated values. -/
theorem kepaxos_preaccept_response_bookkeeping :
    (∀ vs : List (Nat × Bool),
      pa_fold vs = (maxSeqSpec vs, trailingCommitted (maxSeqSpec vs) vs.reverse)) ∧
    (∀ (ke : KepaxosState) (msg : KepaxosParsedMsg) (cmd : KepaxosCmd),
      ke.commands msg.key = some cmd →
      ¬ msg.ballot < cmd.ballot →
      cmd.status = KepaxosCmdStatus.preAccepted →
      (((kepaxos_handle_preaccept_response ke msg).1 = KepaxosPAAction.waitQuorum →
        ((kepaxos_handle_preaccept_response ke msg).2.commands msg.key).map
            (fun c => (c.maxSeq, c.maxSeqCommitted))
          = some (pa_update_max (cmd.maxSeq, cmd.maxSeqCommitted)
                    (msg.seq, msg.committed != 0))) ∧
       (∀ c, (kepaxos_handle_preaccept_response ke msg).1 = KepaxosPAAction.fastCommit c →
          (c.maxSeq, c.maxSeqCommitted)
            = pa_update_max (cmd.maxSeq, cmd.maxSeqCommitted) (msg.seq, msg.committed != 0)) ∧
       ((kepaxos_handle_preaccept_response ke msg).1.isFastCommit = true ↔
        (ke.numPeers / 2 ≤ cmd.votes.length + 1 ∧
         ((pa_update_max (cmd.maxSeq, cmd.maxSeqCommitted) (msg.seq, msg.committed != 0)).1
              < cmd.seq ∨
          (cmd.seq = (pa_update_max (cmd.maxSeq, cmd.maxSeqCommitted)
                        (msg.seq, msg.committed != 0)).1 ∧
           (pa_update_max (cmd.maxSeq, cmd.maxSeqCommitted)
              (msg.seq, msg.committed != 0)).2 = false)))))) := by
  refine ⟨pa_fold_spec, ?_⟩
  intro ke msg cmd hc hb hs
  unfold kepaxos_handle_preaccept_response
  rw [hc]
  dsimp only
  rw [if_neg hb, if_neg (by simp [hs])]
  by_cases hq : (cmd.votes
      ++ [({ peer := msg.peer, seq := msg.seq, ballot := msg.ballot } : KepaxosVote)]).length
      < ke.numPeers / 2
  · rw [if_pos hq]
    simp only [List.length_append, List.length_cons, List.length_nil, Nat.zero_add] at hq
    refine ⟨?_, ?_, ?_⟩
    · intro _
      simp [setCmd]
    · intro c hcontra
      exact absurd hcontra (by simp)
    · constructor
      · intro hcontra
        simp [KepaxosPAAction.isFastCommit] at hcontra
      · intro hrhs
        exact absurd hrhs.1 (by omega)
  · rw [if_neg hq]
    simp only [List.length_append, List.length_cons, List.length_nil, Nat.zero_add] at hq
    by_cases hf : cmd.seq
          > (pa_update_max (cmd.maxSeq, cmd.maxSeqCommitted) (msg.seq, msg.committed != 0)).1
        ∨ (cmd.seq = (pa_update_max (cmd.maxSeq, cmd.maxSeqCommitted)
              (msg.seq, msg.committed != 0)).1
           ∧ (pa_update_max (cmd.maxSeq, cmd.maxSeqCommitted)
                (msg.seq, msg.committed != 0)).2 = false)
    · rw [if_pos hf]
      refine ⟨?_, ?_, ?_⟩
      · intro hcontra
        exact absurd hcontra (by simp)
      · intro c hcc
        simp only [KepaxosPAAction.fastCommit.injEq] at hcc
        rw [← hcc]
      · simp only [KepaxosPAAction.isFastCommit, true_iff]
        exact ⟨by omega, hf⟩
    · rw [if_neg hf]
      refine ⟨?_, ?_, ?_⟩
      · intro hcontra
        exact absurd hcontra (by simp)
      · intro c hcontra
        exact absurd hcontra (by simp)
      · constructor
        · intro hcontra
          simp [KepaxosPAAction.isFastCommit] at hcontra
        · intro hrhs
          exact absurd hrhs.2 hf

/-- Command under the C5 counterexample: freshly created, collecting votes
in a 10-peer group (so two responses are still below `num_peers/2`). -/
def c5Cmd : KepaxosCmd :=
  { ctype := 0, status := .preAccepted, seq := 10, key := [4], data := []
    votes := [], maxSeq := 0, maxSeqCommitted := false, maxVoter := none
    ballot := 300, waiting := true }

/-- Engine state for the C5 counterexample. -/
def c5State : KepaxosState :=
  { log := { seqOf := fun _ => 0, ballotOf := fun _ => 0
             maxBallot := 300, diffFrom := fun _ => [] }
    commands := fun k => if k = [4] then some c5Cmd else none
    numPeers := 10, myIndex := 0, ballot := 300 }

/-- First PreAccept response: seq 5, marked committed. -/
def c5Msg1 : KepaxosParsedMsg :=
  { peer := [80], ballot := 300, seq := 5, mtype := 2, ctype := 0, committed := 1
    key := [4], klen := 1, data := [], dlen := 0 }

/-- Second PreAccept response: seq 3, not committed. -/
def c5Msg2 : KepaxosParsedMsg :=
  { peer := [81], ballot := 300, seq := 3, mtype := 2, ctype := 0, committed := 0
    key := [4], klen := 1, data := [], dlen := 0 }

/-- C5 counterexample: after responses (seq 5, committed) then (seq 3, not
committed), the highest seq among the responses is 5 and the response
carrying it was marked committed, yet `cmd.max_seq_committed` is false — the
lower-seq response cleared it — refuting the claimed "true iff the response
carrying that highest seq was marked committed". -/
theorem kepaxos_preaccept_response_committed_flag_cleared :
    c5Msg1.seq = 5 ∧ c5Msg1.committed = 1 ∧ c5Msg2.seq = 3 ∧
    (((kepaxos_handle_preaccept_response
          (kepaxos_handle_preaccept_response c5State c5Msg1).2 c5Msg2).2.commands [4]).map
        fun c => (c.maxSeq, c.maxSeqCommitted))
      = some (5, false) := by
  exact ⟨rfl, rfl, rfl, by decide⟩

/-- Witness for the amended C5 at a concrete input: in a 4-peer group a
command at seq 7 with one prior vote receives a response (seq 2, not
committed); the quorum `num_peers/2 = 2` is reached, the updated pair is
`pa_update_max (2, false) (2, false) = (2, false)` and `7 > 2`, so the fast
path fires. -/
theorem kepaxos_preaccept_response_bookkeeping_witness :
    (pa_fold [(5, true), (3, false)] = (5, false)) ∧
    ((kepaxos_handle_preaccept_response
        { log := { seqOf := fun _ => 0, ballotOf := fun _ => 0
                   maxBallot := 300, diffFrom := fun _ => [] }
          commands := fun k =>
            if k = [4] then
              some { ctype := 0, status := .preAccepted, seq := 7, key := [4], data := []
                     votes := [{ peer := [80], seq := 2, ballot := 300 }]
                     maxSeq := 2, maxSeqCommitted := false, maxVoter := some [80]
                     ballot := 300, waiting := true }
            else none
          numPeers := 4, myIndex := 0, ballot := 300 }
        { peer := [81], ballot := 300, seq := 2, mtype := 2, ctype := 0, committed := 0
          key := [4], klen := 1, data := [], dlen := 0 }).1.isFastCommit = true) := by
  constructor
  · have h := kepaxos_preaccept_response_bookkeeping.1 [(5, true), (3, false)]
    rw [h]; decide
  · have h := (kepaxos_preaccept_response_bookkeeping.2
        { log := { seqOf := fun _ => 0, ballotOf := fun _ => 0
                   maxBallot := 300, diffFrom := fun _ => [] }
          commands := fun k =>
            if k = [4] then
              some { ctype := 0, status := .preAccepted, seq := 7, key := [4], data := []
                     votes := [{ peer := [80], seq := 2, ballot := 300 }]
                     maxSeq := 2, maxSeqCommitted := false, maxVoter := some [80]
                     ballot := 300, waiting := true }
            else none
          numPeers := 4, myIndex := 0, ballot := 300 }
        { peer := [81], ballot := 300, seq := 2, mtype := 2, ctype := 0, committed := 0
          key := [4], klen := 1, data := [], dlen := 0 }
        { ctype := 0, status := .preAccepted, seq := 7, key := [4], data := []
          votes := [{ peer := [80], seq := 2, ballot := 300 }]
          maxSeq := 2, maxSeqCommitted := false, maxVoter := some [80]
          ballot := 300, waiting := true }
        (by decide) (by decide) (by decide)).2.2
    exact h.mpr (by decide)

/-! ## ARC cache engine (arc.c)

The four lists are sequences of keys (head = most recently used, last =
LRU); each live object is keyed by its key bytes.  `objs` holds every live
object (reference counting and object destruction are not modelled — an
object unreachable from the index and the lists is simply never consulted
again); `hashed` is membership in the hash index (`cache->hash`).  The
backing-store callbacks are external: `fetch`'s outcome is a parameter,
`create`/`evict`/`destroy` have no observable effect on the cache state
modelled here.  `size_t` arithmetic wraps modulo 2^64 (`u64`,
`size_t_sub`); `num_items` decrements are Nat subtraction (its value is not
the subject of any claim below). -/

/-- The four lists (`cache->mru` etc., arc.c:108-122). -/
inductive ArcListId where
  | mru
  | mfu
  | mrug
  | mfug
deriving DecidableEq

/-- An `arc_object_t` (arc.c:93-104): accounted size, list membership state
(`none` = UNLINKED), async flag.  `baseSize` is `ARC_OBJ_BASE_SIZE(obj)`. -/
structure ArcObject where
  key : Key
  baseSize : Nat
  size : Nat
  state : Option ArcListId
  async : Bool
deriving DecidableEq

/-- Outcome of the backing store's `fetch` callback (arc.c:289):
`0` = ok with the reported size, `1` = ok but do not cache, `-1` = fatal. -/
inductive ArcFetchResult where
  | ok (size : Nat)
  | dontCache
  | fetchError
deriving DecidableEq

/-- The cache (`struct __arc`, arc.c:108-122). -/
structure ArcState where
  c : Nat
  p : Nat
  objs : Key → Option ArcObject
  hashed : Key → Bool
  lists : ArcListId → List Key
  sizes : ArcListId → Nat
  numItems : Nat
  needsRebalance : Bool

/-- `ht_get` on the index. -/
def ht_get_arc (s : ArcState) (k : Key) : Option ArcObject :=
  if s.hashed k then s.objs k else none

/-- Update the object stored under a key (the C code mutates the object the
pointer refers to). -/
def setObj (s : ArcState) (k : Key) (o : ArcObject) : ArcState :=
  { s with objs := fun k2 => if k2 = k then some o else s.objs k2 }

/-- `ht_delete` on the index (the object itself stays alive while
referenced). -/
def ht_delete_arc (s : ArcState) (k : Key) : ArcState :=
  { s with hashed := fun k2 => if k2 = k then false else s.hashed k2 }

def setList (s : ArcState) (l : ArcListId) (v : List Key) : ArcState :=
  { s with lists := fun l2 => if l2 = l then v else s.lists l2 }

def setSize (s : ArcState) (l : ArcListId) (v : Nat) : ArcState :=
  { s with sizes := fun l2 => if l2 = l then v else s.sizes l2 }

/-- `arc_state_lru` (arc.c:157-161): the tail of a list. -/
def arc_state_lru (s : ArcState) (l : ArcListId) : Option Key :=
  (s.lists l).getLast?

/-- Shallow embedding of `arc_move` (arc.c:231-332).  `k` names the object
(`obj`), which the C callers pass as a valid pointer (`objs k = none` is a
junk branch).  `target = none` is the removal transition; `fetch` is the
outcome the backing store would return, consulted only on the
ghost/UNLINKED → MRU/MFU path.  The `evict` callback (ghost transition) is
external. -/
def arc_move (s : ArcState) (k : Key) (target : Option ArcListId)
    (fetch : ArcFetchResult) : Int × ArcState :=
  match s.objs k with
  | none => (0, s)
  | some obj =>
    let objState := obj.state
    let s1 :=
      match obj.state with
      | some ls =>
        let p1 :=
          if target ≠ none then
            if ls = ArcListId.mrug then
              min s.c (u64 (s.p + max (if s.sizes ArcListId.mrug ≠ 0 then
                  s.sizes ArcListId.mfug / s.sizes ArcListId.mrug
                else s.sizes ArcListId.mfug / 2) 1))
            else if ls = ArcListId.mfug then
              -- MAX(0, p - delta) on size_t: MAX is a no-op, the subtraction wraps
              size_t_sub s.p (max (if s.sizes ArcListId.mfug ≠ 0 then
                  s.sizes ArcListId.mrug / s.sizes ArcListId.mfug
                else s.sizes ArcListId.mrug / 2) 1)
            else s.p
          else s.p
        let s2 := { s with p := p1 }
        let s3 := setSize s2 ls (size_t_sub (s2.sizes ls) obj.size)
        let s4 := setList s3 ls ((s3.lists ls).erase k)
        setObj s4 k { obj with state := none }
      | none => s
    match target with
    | none =>
      let s2 := if objState = some ArcListId.mru ∨ objState = some ArcListId.mfu
                then { s1 with numItems := s1.numItems - 1 } else s1
      (-1, s2)
    | some t =>
      if t = ArcListId.mrug ∨ t = ArcListId.mfug then
        let s2 := setObj s1 k { obj with state := some t, async := false }
        let s3 := setList s2 t (k :: s2.lists t)
        let s4 := setSize s3 t (u64 (s3.sizes t + obj.size))
        let s5 := if objState = some ArcListId.mru ∨ objState = some ArcListId.mfu
                  then { s4 with numItems := s4.numItems - 1 } else s4
        (0, s5)
      else if objState ≠ some ArcListId.mru ∧ objState ≠ some ArcListId.mfu then
        match fetch with
        | .dontCache => (0, ht_delete_arc s1 k)
        | .fetchError => (-1, ht_delete_arc s1 k)
        | .ok fsize =>
          if fsize ≥ s.c then
            (0, { s1 with numItems := s1.numItems + 1 })
          else
            let obj2 := { obj with size := obj.baseSize + fsize, state := some t }
            let s2 := setObj s1 k obj2
            let s3 := setList s2 t (k :: s2.lists t)
            let s4 := setSize s3 t (u64 (s3.sizes t + obj2.size))
            (0, { s4 with needsRebalance := true, numItems := s4.numItems + 1 })
      else
        let s2 := setObj s1 k { obj with state := some t }
        let s3 := setList s2 t (k :: s2.lists t)
        let s4 := setSize s3 t (u64 (s3.sizes t + obj.size))
        (0, { s4 with needsRebalance := true })

/-- Shallow embedding of `arc_remove` (arc.c:410-422). -/
def arc_remove (s : ArcState) (k : Key) : ArcState :=
  if s.hashed k then
    let s1 := ht_delete_arc s k
    match s1.objs k with
    | some obj =>
      -- the fetch argument is irrelevant on the target = none path
      if obj.state ≠ none then (arc_move s1 k none ArcFetchResult.fetchError).2 else s1
    | none => s1
  else s

/-- Phase 1 of `arc_balance` (arc.c:171-186), with explicit fuel: the C
`while` loop demotes at most one list element per iteration, so
`|MRU| + |MFU|` iterations suffice for the loop to reach its exit
condition; when the fuel runs out the state is returned as-is. -/
def arc_balance_phase1 : Nat → ArcState → Nat → ArcState
  | 0, s, _ => s
  | fuel + 1, s, size =>
    if s.sizes ArcListId.mru + s.sizes ArcListId.mfu + size > s.c then
      if s.sizes ArcListId.mru > s.p then
        match arc_state_lru s ArcListId.mru with
        | some k =>
          arc_balance_phase1 fuel
            (arc_move s k (some ArcListId.mrug) ArcFetchResult.fetchError).2 size
        | none => s
      else if s.sizes ArcListId.mfu > 0 then
        match arc_state_lru s ArcListId.mfu with
        | some k =>
          arc_balance_phase1 fuel
            (arc_move s k (some ArcListId.mfug) ArcFetchResult.fetchError).2 size
        | none => s
      else s
    else s

/-- Phase 2 of `arc_balance` (arc.c:188-203), with explicit fuel. -/
def arc_balance_phase2 : Nat → ArcState → ArcState
  | 0, s => s
  | fuel + 1, s =>
    if s.sizes ArcListId.mrug + s.sizes ArcListId.mfug > s.c then
      if s.sizes ArcListId.mfug > s.p then
        match arc_state_lru s ArcListId.mfug with
        | some k => arc_balance_phase2 fuel (arc_remove s k)
        | none => s
      else if s.sizes ArcListId.mrug > 0 then
        match arc_state_lru s ArcListId.mrug with
        | some k => arc_balance_phase2 fuel (arc_remove s k)
        | none => s
      else s
    else s

/-- Shallow embedding of `arc_balance` (arc.c:165-209). -/
def arc_balance (s : ArcState) (size : Nat) : ArcState :=
  if ¬ s.needsRebalance then s
  else
    let s1 := arc_balance_phase1
      ((s.lists ArcListId.mru).length + (s.lists ArcListId.mfu).length) s size
    let s2 := arc_balance_phase2
      ((s1.lists ArcListId.mrug).length + (s1.lists ArcListId.mfug).length) s1
    { s2 with needsRebalance := false }

/-- `ARC_OBJ_BASE_SIZE` (arc.c:128): the struct size plus the key bytes when
the key does not fit the 32-byte inline buffer. -/
def ARC_OBJ_BASE_SIZE (structSize klen : Nat) : Nat :=
  structSize + (if klen ≤ 32 then 0 else klen)

/-- Shallow embedding of `arc_object_create` (arc.c:133-154). -/
def arc_object_create (structSize : Nat) (k : Key) : ArcObject :=
  { key := k, baseSize := ARC_OBJ_BASE_SIZE structSize k.length
    size := ARC_OBJ_BASE_SIZE structSize k.length, state := none, async := false }

/-- Shallow embedding of `arc_create` (arc.c:363-384): `p = c >> 1`. -/
def arc_create (c _cos : Nat) : ArcState :=
  { c := c, p := c / 2, objs := fun _ => none, hashed := fun _ => false
    lists := fun _ => [], sizes := fun _ => 0
    numItems := 0, needsRebalance := false }

/-- Shallow embedding of `arc_lookup` (arc.c:448-520).  The returned handle
is the key of the retained object (`none` = NULL).  In this sequential
model `ht_set_if_not_exists` on the miss path always succeeds (the key was
just found absent), so the retry branch (rc = 1, arc.c:491-497) and the
failure branches of the hashtable cannot occur. -/
def arc_lookup (s : ArcState) (k : Key) (async : Bool) (structSize : Nat)
    (fetch : ArcFetchResult) : Option Key × ArcState :=
  match ht_get_arc s k with
  | some obj =>
    if async && obj.async then (some k, s)
    else
      let r := arc_move s k (some ArcListId.mfu) fetch
      if r.1 ≠ 0 then (none, r.2)
      else (some k, arc_balance r.2 ((r.2.objs k).elim 0 fun o => o.size))
  | none =>
    let obj := { arc_object_create structSize k with async := async }
    let s1 := setObj s k obj
    let s2 := { s1 with hashed := fun k2 => if k2 = k then true else s1.hashed k2 }
    let r := arc_move s2 k (some ArcListId.mru) fetch
    if r.1 = 0 then (some k, arc_balance r.2 ((r.2.objs k).elim 0 fun o => o.size))
    else (none, ht_delete_arc r.2 k)

/-! ### C4: the adaptive target p under ghost hits -/

/-- The object for the C4 failing input: resident in MFUG. -/
def c4Obj : ArcObject :=
  { key := [9], baseSize := 1, size := 10, state := some ArcListId.mfug, async := false }

/-- The cache state for the C4 failing input: C = 100, p = 0, |MRUG| = 0,
|MFUG| = 10 bytes (one object). -/
def c4State : ArcState :=
  { c := 100, p := 0
    objs := fun k => if k = [9] then some c4Obj else none
    hashed := fun k => k = [9]
    lists := fun l => if l = ArcListId.mfug then [[9]] else []
    sizes := fun l => if l = ArcListId.mfug then 10 else 0
    numItems := 0, needsRebalance := false }

/-- C4: `arc_create` does initialise `p = C/2`, but the MFUG ghost-hit
adjustment `p = MAX(0, p - MAX(...))` (arc.c:249) is computed on the
unsigned `size_t`, where `MAX(0, ·)` is a no-op and the subtraction wraps:
moving the MFUG-resident object on a ghost hit with `p = 0` sets
`p = 2^64 - 1 > C`, violating `0 ≤ p ≤ C`. -/
theorem arc_move_mfug_hit_p_wraps :
    (arc_create 100 0).p = 100 / 2 ∧
    c4State.p = 0 ∧ c4State.c = 100 ∧
    (arc_move c4State [9] (some ArcListId.mfu) (ArcFetchResult.ok 5)).2.p = U64 - 1 ∧
    ¬ (arc_move c4State [9] (some ArcListId.mfu) (ArcFetchResult.ok 5)).2.p ≤ c4State.c := by
  refine ⟨rfl, rfl, rfl, by decide, by decide⟩

/-! ### C9: fatal fetch during lookup -/

/-- On the fetch path (object not resident in MRU/MFU) a fatal fetch makes
`arc_move` return -1 after deleting the key from the index. -/
theorem arc_move_fetch_error (s : ArcState) (k : Key) (obj : ArcObject)
    (t : ArcListId)
    (hobj : s.objs k = some obj)
    (hmru : obj.state ≠ some ArcListId.mru)
    (hmfu : obj.state ≠ some ArcListId.mfu)
    (ht : ¬ (t = ArcListId.mrug ∨ t = ArcListId.mfug)) :
    (arc_move s k (some t) ArcFetchResult.fetchError).1 = -1 ∧
    (arc_move s k (some t) ArcFetchResult.fetchError).2.hashed k = false := by
  unfold arc_move
  rw [hobj]
  dsimp only
  rw [if_neg ht, if_pos ⟨hmru, hmfu⟩]
  rcases hst : obj.state with _ | ls
  · dsimp only
    exact ⟨rfl, by simp [ht_delete_arc]⟩
  · dsimp only
    exact ⟨rfl, by simp [ht_delete_arc]⟩

/-- C9: if during an `arc_lookup` the backing `fetch` callback is invoked
(the object is absent, or present but not resident in MRU/MFU and not served
through the async shortcut) and returns -1, the call returns no handle
(NULL) and the key has been removed from the hash index, so a subsequent
lookup does not find the old entry. -/
theorem arc_lookup_fetch_error (s : ArcState) (k : Key) (async : Bool)
    (structSize : Nat)
    (hfetch : ∀ obj, ht_get_arc s k = some obj →
      (¬ (async = true ∧ obj.async = true)) ∧
      obj.state ≠ some ArcListId.mru ∧ obj.state ≠ some ArcListId.mfu) :
    (arc_lookup s k async structSize ArcFetchResult.fetchError).1 = none ∧
    (arc_lookup s k async structSize ArcFetchResult.fetchError).2.hashed k = false := by
  unfold arc_lookup
  rcases hg : ht_get_arc s k with _ | obj
  · -- miss path: the freshly created object is UNLINKED, fetch runs and fails
    dsimp only
    have hobj2 : (setObj s k { arc_object_create structSize k with async := async }).objs k
        = some { arc_object_create structSize k with async := async } := by
      simp [setObj]
    have h := arc_move_fetch_error
      { setObj s k { arc_object_create structSize k with async := async } with
          hashed := fun k2 => if k2 = k then true
            else (setObj s k { arc_object_create structSize k with async := async }).hashed k2 }
      k { arc_object_create structSize k with async := async } ArcListId.mru
      (by simp [setObj]) (by simp [arc_object_create])
      (by simp [arc_object_create]) (by simp)
    rw [if_neg (by rw [h.1]; decide)]
    exact ⟨rfl, by simp [ht_delete_arc]⟩
  · -- hit path on a non-resident object
    dsimp only
    rcases hfetch obj hg with ⟨hasync, hmru, hmfu⟩
    have hko : s.objs k = some obj := by
      unfold ht_get_arc at hg
      by_cases hh : s.hashed k
      · rw [if_pos hh] at hg; exact hg
      · rw [if_neg hh] at hg; cases hg
    have h := arc_move_fetch_error s k obj ArcListId.mfu hko hmru hmfu (by simp)
    have hasync2 : (async && obj.async) = false := by
      cases ha : async with
      | false => simp
      | true =>
        cases hb : obj.async with
        | false => simp
        | true => exact absurd ⟨ha, hb⟩ hasync
    rw [hasync2]
    rw [if_neg (by decide : ¬ (false = true))]
    rw [if_pos (by rw [h.1]; decide)]
    exact ⟨rfl, h.2⟩

/-- A resident-in-MRUG object for the C9 witness. -/
def c9Obj : ArcObject :=
  { key := [7], baseSize := 1, size := 10, state := some ArcListId.mrug, async := false }

/-- Cache state for the C9 witness: the key is in the index, its object is a
ghost (so a lookup runs `fetch`). -/
def c9State : ArcState :=
  { c := 100, p := 50
    objs := fun k => if k = [7] then some c9Obj else none
    hashed := fun k => k = [7]
    lists := fun l => if l = ArcListId.mrug then [[7]] else []
    sizes := fun l => if l = ArcListId.mrug then 10 else 0
    numItems := 0, needsRebalance := false }

/-- Witness for C9 at a concrete input: a ghost-hit lookup whose fetch fails
returns NULL and unhashes the key. -/
theorem arc_lookup_fetch_error_witness :
    (arc_lookup c9State [7] false 1 ArcFetchResult.fetchError).1 = none ∧
    (arc_lookup c9State [7] false 1 ArcFetchResult.fetchError).2.hashed [7] = false := by
  have h := arc_lookup_fetch_error c9State [7] false 1
    (fun obj hobj => by
      have : obj = c9Obj := by
        simpa [ht_get_arc, c9State, c9Obj] using hobj.symm
      subst this
      exact ⟨by simp, by decide, by decide⟩)
  exact h

/-! ### C8: the balance bound

Consistency invariants tying the size accumulators, the lists and the
objects' state fields together (spec sections 3.1 and 3.1.1): these hold for
any cache manipulated only through the ARC operations and are the
assumptions under which the `while` loops of `arc_balance` make progress. -/

/-- Sum of the accounted sizes of the objects named by a key list. -/
def sumSizes (s : ArcState) (ks : List Key) : Nat :=
  (ks.map fun k => (s.objs k).elim 0 fun o => o.size).sum

/-- A live list (MRU/MFU) is consistent: its size accumulator is the sum of
its members' sizes, it has no duplicate keys, and each member's object
records membership in it and a positive accounted size. -/
def listInv (s : ArcState) (l : ArcListId) : Prop :=
  s.sizes l = sumSizes s (s.lists l) ∧ (s.lists l).Nodup ∧
  ∀ k ∈ s.lists l, ∃ o, s.objs k = some o ∧ o.state = some l ∧ 0 < o.size

/-- Membership consistency for a ghost list. -/
def memInv (s : ArcState) (l : ArcListId) : Prop :=
  (s.lists l).Nodup ∧
  ∀ k ∈ s.lists l, ∃ o, s.objs k = some o ∧ o.state = some l

theorem sumSizes_congr (s s2 : ArcState) (ks : List Key)
    (h : ∀ k ∈ ks, s2.objs k = s.objs k) : sumSizes s2 ks = sumSizes s ks := by
  unfold sumSizes
  rw [List.map_congr_left fun k hk => by rw [h k hk]]

theorem sumSizes_erase (s : ArcState) (ks : List Key) (k : Key) (o : ArcObject)
    (hk : k ∈ ks) (hobj : s.objs k = some o) :
    sumSizes s ks = o.size + sumSizes s (ks.erase k) := by
  induction ks with
  | nil => cases hk
  | cons a tl ih =>
    by_cases ha : a = k
    · subst ha
      rw [List.erase_cons_head]
      simp [sumSizes, hobj]
    · have hk2 : k ∈ tl := by
        rcases List.mem_cons.mp hk with h | h
        · exact absurd h.symm ha
        · exact h
      rw [show (a :: tl).erase k = a :: tl.erase k by
            rw [List.erase_cons_tail]
            simp [ha]]
      simp only [sumSizes, List.map_cons, List.sum_cons] at ih ⊢
      rw [ih hk2]
      omega

/-- Field computation of the Phase-1 demotion `arc_move(obj, ghost)` for an
object resident in MRU or MFU. -/
theorem arc_move_demote (s : ArcState) (k : Key) (o : ArcObject)
    (l t : ArcListId) (fetch : ArcFetchResult)
    (hobj : s.objs k = some o) (hst : o.state = some l)
    (hl : l = ArcListId.mru ∨ l = ArcListId.mfu)
    (ht : t = ArcListId.mrug ∨ t = ArcListId.mfug) :
    (arc_move s k (some t) fetch).2.c = s.c ∧
    (arc_move s k (some t) fetch).2.p = s.p ∧
    (arc_move s k (some t) fetch).2.lists l = (s.lists l).erase k ∧
    (arc_move s k (some t) fetch).2.lists t = k :: s.lists t ∧
    (∀ l2, l2 ≠ l → l2 ≠ t → (arc_move s k (some t) fetch).2.lists l2 = s.lists l2) ∧
    (arc_move s k (some t) fetch).2.sizes l = size_t_sub (s.sizes l) o.size ∧
    (∀ l2, l2 ≠ l → l2 ≠ t → (arc_move s k (some t) fetch).2.sizes l2 = s.sizes l2) ∧
    (arc_move s k (some t) fetch).2.objs k
      = some { o with state := some t, async := false } ∧
    (∀ k2, k2 ≠ k → (arc_move s k (some t) fetch).2.objs k2 = s.objs k2) := by
  unfold arc_move
  rw [hobj]
  dsimp only
  rw [hst]
  dsimp only
  rcases hl with rfl | rfl <;> rcases ht with rfl | rfl <;>
    refine ⟨?_, ?_, ?_, ?_, ?_, ?_, ?_, ?_, ?_⟩ <;>
    first
      | (intro l2 h1 h2
         simp [setObj, setList, setSize, h1, h2])
      | (intro k2 h1
         simp [setObj, setList, setSize, h1])
      | simp [setObj, setList, setSize]

/-- Phase-1 demotion preserves the consistency invariants, decreases the
demoted list's length by one and leaves the other live list untouched. -/
theorem arc_move_demote_preserves (s : ArcState) (k : Key) (o : ArcObject)
    (l m t g : ArcListId) (fetch : ArcFetchResult)
    (hobj : s.objs k = some o) (hst : o.state = some l)
    (hl : l = ArcListId.mru ∨ l = ArcListId.mfu)
    (ht : t = ArcListId.mrug ∨ t = ArcListId.mfug)
    (hml : m ≠ l) (hmt : m ≠ t) (hgl : g ≠ l) (hgt : g ≠ t)
    (hmem : k ∈ s.lists l)
    (hinvl : listInv s l) (hinvm : listInv s m)
    (hinvt : memInv s t) (hinvg : memInv s g) :
    (arc_move s k (some t) fetch).2.c = s.c ∧
    (arc_move s k (some t) fetch).2.p = s.p ∧
    listInv (arc_move s k (some t) fetch).2 l ∧
    listInv (arc_move s k (some t) fetch).2 m ∧
    memInv (arc_move s k (some t) fetch).2 t ∧
    memInv (arc_move s k (some t) fetch).2 g ∧
    ((arc_move s k (some t) fetch).2.lists l).length + 1 = (s.lists l).length ∧
    (arc_move s k (some t) fetch).2.lists m = s.lists m := by
  obtain ⟨hc, hp, hll, hlt, hlo, hsl, hso, hok, hoo⟩ :=
    arc_move_demote s k o l t fetch hobj hst hl ht
  have hlnet : l ≠ t := by rcases hl with rfl | rfl <;> rcases ht with rfl | rfl <;> decide
  have hkm : k ∉ s.lists m := by
    intro hk
    obtain ⟨o2, ho2, hst2, _⟩ := hinvm.2.2 k hk
    rw [hobj] at ho2
    injection ho2 with ho2e
    rw [← ho2e, hst] at hst2
    injection hst2 with he
    exact hml he.symm
  have hkt : k ∉ s.lists t := by
    intro hk
    obtain ⟨o2, ho2, hst2⟩ := hinvt.2 k hk
    rw [hobj] at ho2
    injection ho2 with ho2e
    rw [← ho2e, hst] at hst2
    injection hst2 with he
    exact hlnet he
  have hkg : k ∉ s.lists g := by
    intro hk
    obtain ⟨o2, ho2, hst2⟩ := hinvg.2 k hk
    rw [hobj] at ho2
    injection ho2 with ho2e
    rw [← ho2e, hst] at hst2
    injection hst2 with he
    exact hgl he.symm
  have hsum := sumSizes_erase s (s.lists l) k o hmem hobj
  have hub : o.size ≤ s.sizes l := by rw [hinvl.1, hsum]; omega
  have hsub : size_t_sub (s.sizes l) o.size = s.sizes l - o.size := by
    unfold size_t_sub
    rw [if_pos hub]
  have hkerase : k ∉ (s.lists l).erase k := hinvl.2.1.not_mem_erase
  have hcerase : sumSizes (arc_move s k (some t) fetch).2 ((s.lists l).erase k)
      = sumSizes s ((s.lists l).erase k) := by
    apply sumSizes_congr
    intro k2 hk2
    apply hoo
    intro he
    exact hkerase (he ▸ hk2)
  refine ⟨hc, hp, ⟨?_, ?_, ?_⟩, ⟨?_, ?_, ?_⟩, ⟨?_, ?_⟩, ⟨?_, ?_⟩, ?_, ?_⟩
  · rw [hsl, hsub, hll, hcerase]
    rw [hinvl.1, hsum]
    omega
  · rw [hll]
    exact hinvl.2.1.erase k
  · intro k2 hk2
    rw [hll] at hk2
    have hne : k2 ≠ k := fun he => hkerase (he ▸ hk2)
    obtain ⟨o2, ho2, hst2, hsz2⟩ := hinvl.2.2 k2 (List.mem_of_mem_erase hk2)
    exact ⟨o2, by rw [hoo k2 hne]; exact ho2, hst2, hsz2⟩
  · rw [hso m hml hmt, hlo m hml hmt, hinvm.1]
    apply (sumSizes_congr _ _ _ _).symm
    intro k2 hk2
    exact hoo k2 fun he => hkm (he ▸ hk2)
  · rw [hlo m hml hmt]
    exact hinvm.2.1
  · intro k2 hk2
    rw [hlo m hml hmt] at hk2
    obtain ⟨o2, ho2, hst2, hsz2⟩ := hinvm.2.2 k2 hk2
    exact ⟨o2, by rw [hoo k2 fun he => hkm (he ▸ hk2)]; exact ho2, hst2, hsz2⟩
  · rw [hlt]
    exact List.nodup_cons.mpr ⟨hkt, hinvt.1⟩
  · intro k2 hk2
    rw [hlt] at hk2
    rcases List.mem_cons.mp hk2 with rfl | hk3
    · exact ⟨_, hok, rfl⟩
    · obtain ⟨o2, ho2, hst2⟩ := hinvt.2 k2 hk3
      exact ⟨o2, by rw [hoo k2 fun he => hkt (he ▸ hk3)]; exact ho2, hst2⟩
  · rw [hlo g hgl hgt]
    exact hinvg.1
  · intro k2 hk2
    rw [hlo g hgl hgt] at hk2
    obtain ⟨o2, ho2, hst2⟩ := hinvg.2 k2 hk2
    exact ⟨o2, by rw [hoo k2 fun he => hkg (he ▸ hk2)]; exact ho2, hst2⟩
  · rw [hll, List.length_erase_of_mem hmem]
    have hpos : 0 < (s.lists l).length := List.length_pos.mpr (List.ne_nil_of_mem hmem)
    omega
  · exact hlo m hml hmt

/-- Phase 1 (arc.c:171-186) drives `|MRU| + |MFU|` (in bytes) to at most C:
at exit either the while condition failed or MRU fits under p (≤ C) and MFU
is empty.  Fuel `≥ |MRU| + |MFU|` (in elements) suffices because every
iteration demotes one element. -/
theorem arc_balance_phase1_bound (fuel : Nat) :
    ∀ (s : ArcState) (size : Nat),
      (s.lists ArcListId.mru).length + (s.lists ArcListId.mfu).length ≤ fuel →
      listInv s ArcListId.mru → listInv s ArcListId.mfu →
      memInv s ArcListId.mrug → memInv s ArcListId.mfug →
      s.p ≤ s.c →
      (arc_balance_phase1 fuel s size).sizes ArcListId.mru
          + (arc_balance_phase1 fuel s size).sizes ArcListId.mfu ≤ s.c ∧
      (arc_balance_phase1 fuel s size).c = s.c ∧
      memInv (arc_balance_phase1 fuel s size) ArcListId.mrug ∧
      memInv (arc_balance_phase1 fuel s size) ArcListId.mfug := by
  induction fuel with
  | zero =>
    intro s size hlen hmru hmfu hgr hgf hp
    have hnil1 : s.lists ArcListId.mru = [] := List.length_eq_zero.mp (by omega)
    have h1 : s.sizes ArcListId.mru = 0 := by rw [hmru.1, hnil1]; rfl
    have hnil2 : s.lists ArcListId.mfu = [] := List.length_eq_zero.mp (by omega)
    have h2 : s.sizes ArcListId.mfu = 0 := by rw [hmfu.1, hnil2]; rfl
    have h0 : arc_balance_phase1 0 s size = s := rfl
    rw [h0]
    exact ⟨by omega, rfl, hgr, hgf⟩
  | succ n ih =>
    intro s size hlen hmru hmfu hgr hgf hp
    by_cases hcond : s.sizes ArcListId.mru + s.sizes ArcListId.mfu + size > s.c
    · by_cases hm : s.sizes ArcListId.mru > s.p
      · -- demote the MRU LRU to MRUG
        have hpos : 0 < s.sizes ArcListId.mru := Nat.lt_of_le_of_lt (Nat.zero_le _) hm
        have hnn : s.lists ArcListId.mru ≠ [] := by
          intro hnil
          rw [hmru.1, hnil] at hpos
          simp [sumSizes] at hpos
        obtain ⟨k, hk⟩ : ∃ k, (s.lists ArcListId.mru).getLast? = some k := by
          rcases h : (s.lists ArcListId.mru).getLast? with _ | k
          · exact absurd (List.getLast?_eq_none_iff.mp h) hnn
          · exact ⟨k, rfl⟩
        have hkmem : k ∈ s.lists ArcListId.mru := List.mem_of_mem_getLast? hk
        obtain ⟨o, ho, host, _⟩ := hmru.2.2 k hkmem
        obtain ⟨Hc, Hp, Hmru, Hmfu, Hgr, Hgf, Hlen, Hm⟩ :=
          arc_move_demote_preserves s k o ArcListId.mru ArcListId.mfu ArcListId.mrug
            ArcListId.mfug ArcFetchResult.fetchError ho host (Or.inl rfl) (Or.inl rfl)
            (by decide) (by decide) (by decide) (by decide) hkmem hmru hmfu hgr hgf
        have hstep : arc_balance_phase1 (n + 1) s size
            = arc_balance_phase1 n
                (arc_move s k (some ArcListId.mrug) ArcFetchResult.fetchError).2 size := by
          conv_lhs => unfold arc_balance_phase1
          rw [if_pos hcond, if_pos hm,
              show arc_state_lru s ArcListId.mru = some k from hk]
        rw [hstep]
        have hlen2 : ((arc_move s k (some ArcListId.mrug) ArcFetchResult.fetchError).2.lists
                ArcListId.mru).length
            + ((arc_move s k (some ArcListId.mrug) ArcFetchResult.fetchError).2.lists
                ArcListId.mfu).length ≤ n := by
          rw [Hm]
          omega
        obtain ⟨IH1, IH2, IH3, IH4⟩ := ih
          (arc_move s k (some ArcListId.mrug) ArcFetchResult.fetchError).2 size hlen2
          Hmru Hmfu Hgr Hgf (by rw [Hp, Hc]; exact hp)
        exact ⟨IH1.trans (le_of_eq Hc), by rw [IH2, Hc], IH3, IH4⟩
      · by_cases hf : s.sizes ArcListId.mfu > 0
        · -- demote the MFU LRU to MFUG
          have hnn : s.lists ArcListId.mfu ≠ [] := by
            intro hnil
            rw [hmfu.1, hnil] at hf
            simp [sumSizes] at hf
          obtain ⟨k, hk⟩ : ∃ k, (s.lists ArcListId.mfu).getLast? = some k := by
            rcases h : (s.lists ArcListId.mfu).getLast? with _ | k
            · exact absurd (List.getLast?_eq_none_iff.mp h) hnn
            · exact ⟨k, rfl⟩
          have hkmem : k ∈ s.lists ArcListId.mfu := List.mem_of_mem_getLast? hk
          obtain ⟨o, ho, host, _⟩ := hmfu.2.2 k hkmem
          obtain ⟨Hc, Hp, Hmfu2, Hmru2, Hgf2, Hgr2, Hlen, Hm⟩ :=
            arc_move_demote_preserves s k o ArcListId.mfu ArcListId.mru ArcListId.mfug
              ArcListId.mrug ArcFetchResult.fetchError ho host (Or.inr rfl) (Or.inr rfl)
              (by decide) (by decide) (by decide) (by decide) hkmem hmfu hmru hgf hgr
          have hstep : arc_balance_phase1 (n + 1) s size
              = arc_balance_phase1 n
                  (arc_move s k (some ArcListId.mfug) ArcFetchResult.fetchError).2 size := by
            conv_lhs => unfold arc_balance_phase1
            rw [if_pos hcond, if_neg hm, if_pos hf,
                show arc_state_lru s ArcListId.mfu = some k from hk]
          rw [hstep]
          have hlen2 : ((arc_move s k (some ArcListId.mfug) ArcFetchResult.fetchError).2.lists
                  ArcListId.mru).length
              + ((arc_move s k (some ArcListId.mfug) ArcFetchResult.fetchError).2.lists
                  ArcListId.mfu).length ≤ n := by
            rw [Hm]
            omega
          obtain ⟨IH1, IH2, IH3, IH4⟩ := ih
            (arc_move s k (some ArcListId.mfug) ArcFetchResult.fetchError).2 size hlen2
            Hmru2 Hmfu2 Hgr2 Hgf2 (by rw [Hp, Hc]; exact hp)
          exact ⟨IH1.trans (le_of_eq Hc), by rw [IH2, Hc], IH3, IH4⟩
        · -- neither demotion applies: MRU fits under p and MFU is empty
          have hstep : arc_balance_phase1 (n + 1) s size = s := by
            conv_lhs => unfold arc_balance_phase1
            rw [if_pos hcond, if_neg hm, if_neg hf]
          rw [hstep]
          exact ⟨by omega, rfl, hgr, hgf⟩
    · have hstep : arc_balance_phase1 (n + 1) s size = s := by
        conv_lhs => unfold arc_balance_phase1
        rw [if_neg hcond]
      rw [hstep]
      exact ⟨by omega, rfl, hgr, hgf⟩

/-- Field computation of `arc_move(obj, NULL)` for a ghost-resident object
(the phase-2 removal path). -/
theorem arc_move_none_fields (s : ArcState) (k : Key) (o : ArcObject)
    (g : ArcListId) (f : ArcFetchResult)
    (hobj : s.objs k = some o) (hst : o.state = some g)
    (hg : g = ArcListId.mrug ∨ g = ArcListId.mfug) :
    (arc_move s k none f).2.c = s.c ∧
    (arc_move s k none f).2.p = s.p ∧
    (arc_move s k none f).2.lists g = (s.lists g).erase k ∧
    (∀ l2, l2 ≠ g → (arc_move s k none f).2.lists l2 = s.lists l2) ∧
    (∀ l2, l2 ≠ g → (arc_move s k none f).2.sizes l2 = s.sizes l2) ∧
    (arc_move s k none f).2.objs k = some { o with state := none } ∧
    (∀ k2, k2 ≠ k → (arc_move s k none f).2.objs k2 = s.objs k2) ∧
    (arc_move s k none f).2.hashed = s.hashed := by
  unfold arc_move
  rw [hobj]
  dsimp only
  rw [hst]
  dsimp only
  rcases hg with rfl | rfl <;>
    refine ⟨?_, ?_, ?_, ?_, ?_, ?_, ?_, ?_⟩ <;>
    first
      | (intro x h1
         simp [setObj, setList, setSize, h1])
      | simp [setObj, setList, setSize]

theorem memInv_erase (s s2 : ArcState) (k : Key) (l : ArcListId)
    (hinv : memInv s l)
    (hlist : s2.lists l = (s.lists l).erase k)
    (hoo : ∀ k2, k2 ≠ k → s2.objs k2 = s.objs k2) :
    memInv s2 l := by
  constructor
  · rw [hlist]
    exact hinv.1.erase k
  · intro k2 hk2
    rw [hlist] at hk2
    have hne : k2 ≠ k := fun he => hinv.1.not_mem_erase (he ▸ hk2)
    obtain ⟨o2, ho2, hs2⟩ := hinv.2 k2 (List.mem_of_mem_erase hk2)
    exact ⟨o2, by rw [hoo k2 hne]; exact ho2, hs2⟩

theorem memInv_untouched (s s2 : ArcState) (k : Key) (o : ArcObject) (l : ArcListId)
    (hobj : s.objs k = some o) (hstne : o.state ≠ some l)
    (hinv : memInv s l)
    (hlist : s2.lists l = s.lists l)
    (hoo : ∀ k2, k2 ≠ k → s2.objs k2 = s.objs k2) :
    memInv s2 l := by
  have hkl : k ∉ s.lists l := by
    intro hk
    obtain ⟨o2, ho2, hs2⟩ := hinv.2 k hk
    rw [hobj] at ho2
    injection ho2 with he
    exact hstne (he ▸ hs2)
  constructor
  · rw [hlist]
    exact hinv.1
  · intro k2 hk2
    rw [hlist] at hk2
    obtain ⟨o2, ho2, hs2⟩ := hinv.2 k2 hk2
    exact ⟨o2, by rw [hoo k2 fun he => hkl (he ▸ hk2)]; exact ho2, hs2⟩

/-- `arc_remove` of a key whose object is unlinked or ghost-resident leaves
the live lists' sizes and `c` untouched and preserves the ghost
invariants. -/
theorem arc_remove_ghost_preserves (s : ArcState) (k : Key)
    (hgr : memInv s ArcListId.mrug) (hgf : memInv s ArcListId.mfug)
    (hghost : ∀ o, s.objs k = some o →
      o.state = none ∨ o.state = some ArcListId.mrug ∨ o.state = some ArcListId.mfug) :
    (arc_remove s k).sizes ArcListId.mru = s.sizes ArcListId.mru ∧
    (arc_remove s k).sizes ArcListId.mfu = s.sizes ArcListId.mfu ∧
    (arc_remove s k).c = s.c ∧
    memInv (arc_remove s k) ArcListId.mrug ∧
    memInv (arc_remove s k) ArcListId.mfug := by
  unfold arc_remove
  by_cases hh : s.hashed k = true
  · rw [if_pos hh]
    dsimp only
    rcases ho : s.objs k with _ | o
    · rw [show (ht_delete_arc s k).objs k = none from ho]
      dsimp only
      exact ⟨rfl, rfl, rfl, hgr, hgf⟩
    · rw [show (ht_delete_arc s k).objs k = some o from ho]
      dsimp only
      rcases hghost o ho with hnone | hg
      · rw [if_neg (by simp [hnone])]
        exact ⟨rfl, rfl, rfl, hgr, hgf⟩
      · have hsome : o.state ≠ none := by
          rcases hg with hgg | hgg <;> rw [hgg] <;> exact Option.some_ne_none _
        rw [if_pos hsome]
        have ho1 : (ht_delete_arc s k).objs k = some o := ho
        rcases hg with hgg | hgg
        · obtain ⟨Hc, Hp, Hlg, Hlo, Hso, Hok, Hoo, Hh⟩ :=
            arc_move_none_fields (ht_delete_arc s k) k o ArcListId.mrug
              ArcFetchResult.fetchError ho1 hgg (Or.inl rfl)
          refine ⟨?_, ?_, Hc, ?_, ?_⟩
          · rw [Hso ArcListId.mru (by decide)]
            rfl
          · rw [Hso ArcListId.mfu (by decide)]
            rfl
          · exact memInv_erase (ht_delete_arc s k) _ k _ hgr Hlg Hoo
          · exact memInv_untouched (ht_delete_arc s k) _ k o _ ho1
              (by rw [hgg]; decide) hgf (Hlo ArcListId.mfug (by decide)) Hoo
        · obtain ⟨Hc, Hp, Hlg, Hlo, Hso, Hok, Hoo, Hh⟩ :=
            arc_move_none_fields (ht_delete_arc s k) k o ArcListId.mfug
              ArcFetchResult.fetchError ho1 hgg (Or.inr rfl)
          refine ⟨?_, ?_, Hc, ?_, ?_⟩
          · rw [Hso ArcListId.mru (by decide)]
            rfl
          · rw [Hso ArcListId.mfu (by decide)]
            rfl
          · exact memInv_untouched (ht_delete_arc s k) _ k o _ ho1
              (by rw [hgg]; decide) hgr (Hlo ArcListId.mrug (by decide)) Hoo
          · exact memInv_erase (ht_delete_arc s k) _ k _ hgf Hlg Hoo
  · rw [if_neg hh]
    exact ⟨rfl, rfl, rfl, hgr, hgf⟩

/-- Phase 2 (arc.c:188-203) only removes ghost-resident entries: the live
lists' byte sizes and `c` are unchanged. -/
theorem arc_balance_phase2_live (fuel : Nat) :
    ∀ s : ArcState, memInv s ArcListId.mrug → memInv s ArcListId.mfug →
      (arc_balance_phase2 fuel s).sizes ArcListId.mru = s.sizes ArcListId.mru ∧
      (arc_balance_phase2 fuel s).sizes ArcListId.mfu = s.sizes ArcListId.mfu ∧
      (arc_balance_phase2 fuel s).c = s.c := by
  induction fuel with
  | zero =>
    intro s hgr hgf
    exact ⟨rfl, rfl, rfl⟩
  | succ n ih =>
    intro s hgr hgf
    by_cases hcond : s.sizes ArcListId.mrug + s.sizes ArcListId.mfug > s.c
    · by_cases hf : s.sizes ArcListId.mfug > s.p
      · rcases hgl : (s.lists ArcListId.mfug).getLast? with _ | k
        · have hstep : arc_balance_phase2 (n + 1) s = s := by
            conv_lhs => unfold arc_balance_phase2
            rw [if_pos hcond, if_pos hf,
                show arc_state_lru s ArcListId.mfug = none from hgl]
          rw [hstep]
          exact ⟨rfl, rfl, rfl⟩
        · have hkmem : k ∈ s.lists ArcListId.mfug := List.mem_of_mem_getLast? hgl
          obtain ⟨o, ho, host⟩ := hgf.2 k hkmem
          obtain ⟨H1, H2, H3, H4, H5⟩ := arc_remove_ghost_preserves s k hgr hgf
            (fun o2 ho2 => by
              rw [ho] at ho2
              injection ho2 with he
              right; right
              rw [← he]
              exact host)
          have hstep : arc_balance_phase2 (n + 1) s = arc_balance_phase2 n (arc_remove s k) := by
            conv_lhs => unfold arc_balance_phase2
            rw [if_pos hcond, if_pos hf,
                show arc_state_lru s ArcListId.mfug = some k from hgl]
          rw [hstep]
          obtain ⟨I1, I2, I3⟩ := ih (arc_remove s k) H4 H5
          exact ⟨by rw [I1, H1], by rw [I2, H2], by rw [I3, H3]⟩
      · by_cases hr : s.sizes ArcListId.mrug > 0
        · rcases hgl : (s.lists ArcListId.mrug).getLast? with _ | k
          · have hstep : arc_balance_phase2 (n + 1) s = s := by
              conv_lhs => unfold arc_balance_phase2
              rw [if_pos hcond, if_neg hf, if_pos hr,
                  show arc_state_lru s ArcListId.mrug = none from hgl]
            rw [hstep]
            exact ⟨rfl, rfl, rfl⟩
          · have hkmem : k ∈ s.lists ArcListId.mrug := List.mem_of_mem_getLast? hgl
            obtain ⟨o, ho, host⟩ := hgr.2 k hkmem
            obtain ⟨H1, H2, H3, H4, H5⟩ := arc_remove_ghost_preserves s k hgr hgf
              (fun o2 ho2 => by
                rw [ho] at ho2
                injection ho2 with he
                right; left
                rw [← he]
                exact host)
            have hstep : arc_balance_phase2 (n + 1) s
                = arc_balance_phase2 n (arc_remove s k) := by
              conv_lhs => unfold arc_balance_phase2
              rw [if_pos hcond, if_neg hf, if_pos hr,
                  show arc_state_lru s ArcListId.mrug = some k from hgl]
            rw [hstep]
            obtain ⟨I1, I2, I3⟩ := ih (arc_remove s k) H4 H5
            exact ⟨by rw [I1, H1], by rw [I2, H2], by rw [I3, H3]⟩
        · have hstep : arc_balance_phase2 (n + 1) s = s := by
            conv_lhs => unfold arc_balance_phase2
            rw [if_pos hcond, if_neg hf, if_neg hr]
          rw [hstep]
          exact ⟨rfl, rfl, rfl⟩
    · have hstep : arc_balance_phase2 (n + 1) s = s := by
        conv_lhs => unfold arc_balance_phase2
        rw [if_neg hcond]
      rw [hstep]
      exact ⟨rfl, rfl, rfl⟩

/-- C8: whenever `needs_rebalance` is set and `arc_balance(size_hint)` runs
to completion with no concurrent operation in progress — on a cache state
whose lists are consistent (sizes are the sums of their members' accounted
sizes, each member's object records its list, keys are not duplicated) and
whose adaptive target satisfies `p ≤ C` — on return
`MRU.size + MFU.size ≤ C`: Phase 1 repeatedly demotes the MRU list's LRU
entry to MRUG when `MRU.size > p` and otherwise the MFU list's LRU entry to
MFUG when `MFU.size > 0`, until `MRU.size + MFU.size + size_hint ≤ C` or
neither demotion applies, and Phase 2 only removes ghost entries. -/
theorem arc_balance_bound (s : ArcState) (size : Nat)
    (hreb : s.needsRebalance = true)
    (hp : s.p ≤ s.c)
    (hmru : listInv s ArcListId.mru) (hmfu : listInv s ArcListId.mfu)
    (hgr : memInv s ArcListId.mrug) (hgf : memInv s ArcListId.mfug) :
    (arc_balance s size).sizes ArcListId.mru
      + (arc_balance s size).sizes ArcListId.mfu ≤ s.c := by
  unfold arc_balance
  rw [if_neg (by simp [hreb])]
  obtain ⟨P1, P2, P3, P4⟩ := arc_balance_phase1_bound
    ((s.lists ArcListId.mru).length + (s.lists ArcListId.mfu).length) s size
    (le_refl _) hmru hmfu hgr hgf hp
  obtain ⟨Q1, Q2, Q3⟩ := arc_balance_phase2_live _
    (arc_balance_phase1
      ((s.lists ArcListId.mru).length + (s.lists ArcListId.mfu).length) s size) P3 P4
  dsimp only
  rw [Q1, Q2]
  exact P1

/-- Objects for the C8 witness. -/
def c8Obj1 : ArcObject :=
  { key := [1], baseSize := 1, size := 60, state := some ArcListId.mru, async := false }

/-- Second object for the C8 witness. -/
def c8Obj2 : ArcObject :=
  { key := [2], baseSize := 1, size := 50, state := some ArcListId.mfu, async := false }

/-- Cache state for the C8 witness: C = 100, p = 50, one 60-byte MRU entry
and one 50-byte MFU entry (110 > 100, so balancing must demote). -/
def c8State : ArcState :=
  { c := 100, p := 50
    objs := fun k => if k = [1] then some c8Obj1 else if k = [2] then some c8Obj2 else none
    hashed := fun k => k = [1] || k = [2]
    lists := fun l => if l = ArcListId.mru then [[1]]
                      else if l = ArcListId.mfu then [[2]] else []
    sizes := fun l => if l = ArcListId.mru then 60
                      else if l = ArcListId.mfu then 50 else 0
    numItems := 2, needsRebalance := true }

/-- Witness for C8 at a concrete input. -/
theorem arc_balance_bound_witness :
    (arc_balance c8State 0).sizes ArcListId.mru
      + (arc_balance c8State 0).sizes ArcListId.mfu ≤ c8State.c :=
  arc_balance_bound c8State 0 rfl (by decide)
    ⟨by decide, by decide, fun k hk => by
      have hk1 : k = [1] := by simpa [c8State] using hk
      subst hk1
      exact ⟨c8Obj1, rfl, rfl, by decide⟩⟩
    ⟨by decide, by decide, fun k hk => by
      have hk2 : k = [2] := by simpa [c8State] using hk
      subst hk2
      exact ⟨c8Obj2, rfl, rfl, by decide⟩⟩
    ⟨by decide, fun k hk => absurd hk (by simp [c8State])⟩
    ⟨by decide, fun k hk => absurd hk (by simp [c8State])⟩

end Libshardcache












